import Mathlib

/-
Verification of the rate limiter, sanitizer and error pipeline of the
chore-tracker backend (src/app/security.py, src/app/main.py, src/app/api.py).

Modelling conventions:
* Python dicts keyed by client id become functions `String -> _`; the
  defaultdict(list) of RateLimiter.requests is the function with default [].
  Dict assignment is `updF`.
* Wall-clock instants (time.time() floats) are modelled as integers; all the
  verified claims only use ordering and addition of instants, which the
  integer model represents exactly.
* Strings are Lean Strings; regular-expression substitutions are implemented
  character-exactly for the fixed patterns appearing in the source
  (see the Sanitizer section).
-/

namespace ChoreTracker

/-- Pointwise update of a map, modelling Python dict assignment d[k] = v. -/
def updF {α : Type} (f : String → α) (k : String) (v : α) : String → α :=
  fun c => if c = k then v else f c

theorem updF_same {α : Type} (f : String → α) (k : String) (v : α) :
    updF f k v k = v := by
  simp [updF]

theorem updF_other {α : Type} (f : String → α) (k : String) (v : α)
    (c : String) (h : c ≠ k) : updF f k v c = f c := by
  simp [updF, h]

theorem updF_updF {α : Type} (f : String → α) (k : String) (v w : α) :
    updF (updF f k v) k w = updF f k w := by
  funext c
  by_cases h : c = k <;> simp [updF, h]

/-! ## RateLimiter (src/app/security.py, class RateLimiter) -/

/-- State of the RateLimiter: the three configuration integers given to
__init__ plus the two mutable dicts self.requests and self.blocked. -/
structure RateLimiter where
  max_requests : Nat
  window_seconds : Int
  block_duration : Int
  requests : String → List Int
  blocked : String → Option Int

/-- RateLimiter._cleanup_old_requests: keep only the timestamps strictly
newer than current_time - window_seconds for the given client. -/
def cleanup_old_requests (rl : RateLimiter) (client : String) (now : Int) :
    RateLimiter :=
  { rl with
    requests := updF rl.requests client
      ((rl.requests client).filter
        (fun ts => decide (now - rl.window_seconds < ts))) }

/-- Result of RateLimiter.is_allowed: the returned pair (bool, message)
together with the mutated limiter state. -/
structure AllowOutcome where
  allowed : Bool
  message : Option String
  state : RateLimiter

/-- The window logic of is_allowed (everything after the block check):
cleanup, count comparison against max_requests, then either create a block
entry or append the current timestamp. -/
def is_allowed_window (rl : RateLimiter) (client : String) (now : Int) :
    AllowOutcome :=
  let rl1 := cleanup_old_requests rl client now
  if rl.max_requests ≤ (rl1.requests client).length then
    { allowed := false
    , message := some ("Rate limit exceeded. Blocked for " ++
        toString rl.block_duration ++ " seconds")
    , state :=
        { rl1 with
          blocked := updF rl1.blocked client (some (now + rl.block_duration)) } }
  else
    { allowed := true
    , message := none
    , state :=
        { rl1 with
          requests := updF rl1.requests client (rl1.requests client ++ [now]) } }

/-- Deleting the block entry of a client (del self.blocked[client_id]). -/
def removeBlock (rl : RateLimiter) (client : String) : RateLimiter :=
  { rl with blocked := updF rl.blocked client none }

/-- RateLimiter.is_allowed, for an already-resolved client id. -/
def is_allowed (rl : RateLimiter) (client : String) (now : Int) :
    AllowOutcome :=
  match rl.blocked client with
  | some blockUntil =>
      if now < blockUntil then
        { allowed := false
        , message := some ("Rate limit exceeded. Try again in " ++
            toString (blockUntil - now) ++ " seconds")
        , state := rl }
      else
        is_allowed_window (removeBlock rl client) client now
  | none => is_allowed_window rl client now

/-- RateLimiter.clear: empty both dicts. -/
def RateLimiter.clear (rl : RateLimiter) : RateLimiter :=
  { rl with requests := fun _ => [], blocked := fun _ => none }

/-- A sequence of calls to is_allowed by one client at the given instants;
returns whether every call was admitted, and the final state. -/
def runCallsAll (client : String) : RateLimiter → List Int → Bool × RateLimiter
  | rl, [] => (true, rl)
  | rl, t :: rest =>
      let o := is_allowed rl client t
      let p := runCallsAll client o.state rest
      (o.allowed && p.1, p.2)

/-! Basic lemmas about the RateLimiter operations. -/

theorem is_allowed_active_block (rl : RateLimiter) (c : String) (now bu : Int)
    (hblk : rl.blocked c = some bu) (hlt : now < bu) :
    is_allowed rl c now =
      { allowed := false
      , message := some ("Rate limit exceeded. Try again in " ++
          toString (bu - now) ++ " seconds")
      , state := rl } := by
  unfold is_allowed
  rw [hblk]
  simp [hlt]

theorem is_allowed_admit (rl : RateLimiter) (c : String) (t : Int)
    (hblk : rl.blocked c = none)
    (hcnt : ((rl.requests c).filter
      (fun ts => decide (t - rl.window_seconds < ts))).length < rl.max_requests) :
    is_allowed rl c t =
      { allowed := true
      , message := none
      , state :=
          { rl with
            requests := updF rl.requests c
              (((rl.requests c).filter
                  (fun ts => decide (t - rl.window_seconds < ts))) ++ [t]) } } := by
  unfold is_allowed
  rw [hblk]
  unfold is_allowed_window cleanup_old_requests
  simp only [updF_same, Nat.not_le.mpr hcnt, if_false, updF_updF]

theorem is_allowed_breach (rl : RateLimiter) (c : String) (now : Int)
    (hblk : rl.blocked c = none)
    (hcnt : rl.max_requests ≤ ((rl.requests c).filter
      (fun ts => decide (now - rl.window_seconds < ts))).length) :
    is_allowed rl c now =
      { allowed := false
      , message := some ("Rate limit exceeded. Blocked for " ++
          toString rl.block_duration ++ " seconds")
      , state :=
          { rl with
            requests := updF rl.requests c
              ((rl.requests c).filter
                (fun ts => decide (now - rl.window_seconds < ts)))
          , blocked := updF rl.blocked c (some (now + rl.block_duration)) } } := by
  unfold is_allowed
  rw [hblk]
  unfold is_allowed_window cleanup_old_requests
  simp only [updF_same, hcnt, if_true]

/-- Helper: running a batch of calls from a state whose window for the client
already holds only instants inside the window of a later instant `now`
admits every call and appends every instant. -/
theorem runCallsAll_admits (c : String) (now : Int) :
    ∀ (pending : List Int) (rl : RateLimiter),
    rl.blocked c = none →
    (∀ x ∈ rl.requests c, now - rl.window_seconds < x) →
    (∀ t ∈ pending, now - rl.window_seconds < t ∧ t ≤ now) →
    (rl.requests c).length + pending.length ≤ rl.max_requests →
    (runCallsAll c rl pending).1 = true ∧
    (runCallsAll c rl pending).2.requests c = rl.requests c ++ pending ∧
    (runCallsAll c rl pending).2.blocked c = none ∧
    (runCallsAll c rl pending).2.max_requests = rl.max_requests ∧
    (runCallsAll c rl pending).2.window_seconds = rl.window_seconds ∧
    (runCallsAll c rl pending).2.block_duration = rl.block_duration := by
  intro pending
  induction pending with
  | nil =>
      intro rl hblk hreq hpend hcount
      simp [runCallsAll, hblk]
  | cons t rest ih =>
      intro rl hblk hreq hpend hcount
      have htmem : now - rl.window_seconds < t ∧ t ≤ now :=
        hpend t (List.mem_cons_self t rest)
      have hfilter : (rl.requests c).filter
          (fun ts => decide (t - rl.window_seconds < ts)) = rl.requests c := by
        apply List.filter_eq_self.mpr
        intro x hx
        have h1 : now - rl.window_seconds < x := hreq x hx
        have h2 : t ≤ now := htmem.2
        simp only [decide_eq_true_eq]
        omega
      have hlt : ((rl.requests c).filter
          (fun ts => decide (t - rl.window_seconds < ts))).length
            < rl.max_requests := by
        rw [hfilter]
        have : rest.length + 1 = (t :: rest).length := by simp
        omega
      have hstep := is_allowed_admit rl c t hblk hlt
      rw [hfilter] at hstep
      have happly := ih
        { rl with requests := updF rl.requests c (rl.requests c ++ [t]) }
        (by simpa using hblk)
        (by
          intro x hx
          simp only [updF_same] at hx
          rcases List.mem_append.mp hx with h | h
          · exact hreq x h
          · simp only [List.mem_singleton] at h
            subst h
            exact htmem.1)
        (by
          intro u hu
          exact hpend u (List.mem_cons_of_mem t hu))
        (by
          simp only [updF_same, List.length_append, List.length_singleton]
          simp only [List.length_cons] at hcount
          omega)
      simp only [runCallsAll, hstep] at *
      refine ⟨happly.1, ?_, happly.2.2⟩
      rw [happly.2.1]
      simp [updF_same]

/-- C1 main theorem, see the claim theorem below for the statement. -/
theorem breach_scenario (rl : RateLimiter) (c : String) (ts : List Int)
    (now : Int)
    (hmaxpos : 0 < rl.max_requests)
    (hfreshR : rl.requests c = [])
    (hfreshB : rl.blocked c = none)
    (hlen : ts.length = rl.max_requests)
    (hwin : ∀ t ∈ ts, now - rl.window_seconds < t ∧ t ≤ now) :
    (runCallsAll c rl ts).1 = true ∧
    (is_allowed (runCallsAll c rl ts).2 c now).allowed = false ∧
    (is_allowed (runCallsAll c rl ts).2 c now).state.blocked c =
      some (now + rl.block_duration) ∧
    (∀ t2 : Int, now ≤ t2 → t2 < now + rl.block_duration →
      (is_allowed (is_allowed (runCallsAll c rl ts).2 c now).state c t2).allowed
        = false ∧
      (is_allowed (is_allowed (runCallsAll c rl ts).2 c now).state c t2).state =
        (is_allowed (runCallsAll c rl ts).2 c now).state) := by
  have hrun := runCallsAll_admits c now ts rl hfreshB
    (by rw [hfreshR]; intro x hx; cases hx)
    hwin
    (by rw [hfreshR]; simpa using hlen.le)
  set s1 := (runCallsAll c rl ts).2 with hs1
  have hreq1 : s1.requests c = ts := by
    rw [hrun.2.1, hfreshR]; simp
  have hfilter : (s1.requests c).filter
      (fun x => decide (now - s1.window_seconds < x)) = ts := by
    rw [hreq1, hrun.2.2.2.2.1]
    apply List.filter_eq_self.mpr
    intro x hx
    simpa using (hwin x hx).1
  have hcnt : s1.max_requests ≤ ((s1.requests c).filter
      (fun x => decide (now - s1.window_seconds < x))).length := by
    rw [hfilter, hrun.2.2.2.1, ← hlen]
  have hbreach := is_allowed_breach s1 c now hrun.2.2.1 hcnt
  have hblocked2 : (is_allowed s1 c now).state.blocked c =
      some (now + rl.block_duration) := by
    rw [hbreach]
    simp [updF_same, hrun.2.2.2.2.2]
  refine ⟨hrun.1, by rw [hbreach], hblocked2, ?_⟩
  intro t2 h1 h2
  have hactive := is_allowed_active_block
    (is_allowed s1 c now).state c t2 (now + rl.block_duration) hblocked2
    (by omega)
  rw [hactive]
  exact ⟨rfl, rfl⟩

/-! ## Claim C1 -/

/-- C1: if a client with a fresh window issues exactly max_requests calls, all
inside the window of the breach instant and all Admitted, then the
(max_requests+1)-th call is Denied, creates a block entry with
blocked_until = now + block_duration, and every further call strictly before
now + block_duration is Denied and leaves the state untouched. -/
theorem rateLimiter_breach_blocks (rl : RateLimiter) (c : String)
    (ts : List Int) (now : Int)
    (hmaxpos : 0 < rl.max_requests)
    (hWpos : 0 < rl.window_seconds)
    (hDpos : 0 < rl.block_duration)
    (hfreshR : rl.requests c = [])
    (hfreshB : rl.blocked c = none)
    (hlen : ts.length = rl.max_requests)
    (hwin : ∀ t ∈ ts, now - rl.window_seconds < t ∧ t ≤ now) :
    (runCallsAll c rl ts).1 = true ∧
    (is_allowed (runCallsAll c rl ts).2 c now).allowed = false ∧
    (is_allowed (runCallsAll c rl ts).2 c now).state.blocked c =
      some (now + rl.block_duration) ∧
    (∀ t2 : Int, now ≤ t2 → t2 < now + rl.block_duration →
      (is_allowed (is_allowed (runCallsAll c rl ts).2 c now).state c t2).allowed
        = false ∧
      (is_allowed (is_allowed (runCallsAll c rl ts).2 c now).state c t2).state =
        (is_allowed (runCallsAll c rl ts).2 c now).state) :=
  breach_scenario rl c ts now hmaxpos hfreshR hfreshB hlen hwin

/-- A fresh limiter with limit 2, window 60, block duration 300. -/
def rlFresh2 : RateLimiter :=
  { max_requests := 2
  , window_seconds := 60
  , block_duration := 300
  , requests := fun _ => []
  , blocked := fun _ => none }

/-- Witness for C1 at a concrete run: two admitted calls at instants 1 and 2,
breach at instant 10, still denied at instant 100. -/
theorem rateLimiter_breach_blocks_witness :
    (runCallsAll "a" rlFresh2 [1, 2]).1 = true ∧
    (is_allowed (runCallsAll "a" rlFresh2 [1, 2]).2 "a" 10).allowed = false ∧
    (is_allowed (runCallsAll "a" rlFresh2 [1, 2]).2 "a" 10).state.blocked "a" =
      some (10 + rlFresh2.block_duration) ∧
    (∀ t2 : Int, 10 ≤ t2 → t2 < 10 + rlFresh2.block_duration →
      (is_allowed
        (is_allowed (runCallsAll "a" rlFresh2 [1, 2]).2 "a" 10).state "a"
          t2).allowed = false ∧
      (is_allowed
        (is_allowed (runCallsAll "a" rlFresh2 [1, 2]).2 "a" 10).state "a"
          t2).state =
        (is_allowed (runCallsAll "a" rlFresh2 [1, 2]).2 "a" 10).state) :=
  rateLimiter_breach_blocks rlFresh2 "a" [1, 2] 10
    (by decide) (by decide) (by decide) rfl rfl rfl
    (by intro t ht; fin_cases ht <;> constructor <;> decide)

/-! ## Claim C2 -/

/-- A limiter configured so that the block is shorter than the window, with
one recorded timestamp and a block entry that expires at instant 1. -/
def rlShortBlock : RateLimiter :=
  { max_requests := 1
  , window_seconds := 10
  , block_duration := 1
  , requests := updF (fun _ => []) "c" [0]
  , blocked := updF (fun _ => none) "c" (some 1) }

/-- C2 counterexample: the block entry of client c has expired at instant 1
(now >= blocked_until), yet the next admission check is Denied, because the
pre-block timestamp 0 is still inside the 10-second window; the window is
not clean and the next call after block expiry is not Admitted.
rlShortBlock is reachable: from a fresh limiter, an admitted call at
instant 0, a second call at instant 0 (breach, block until 1). -/
theorem rateLimiter_fresh_slate_cex :
    rlShortBlock.blocked "c" = some 1 ∧
    (1 : Int) ≥ 1 ∧
    (is_allowed rlShortBlock "c" 1).allowed = false ∧
    (is_allowed
      (is_allowed (is_allowed
        { rlShortBlock with
          requests := fun _ => [], blocked := fun _ => none } "c" 0).state
        "c" 0).state "c" 1).allowed = false := by
  refine ⟨rfl, by decide, ?_, ?_⟩ <;> decide

/-- C2 amended: on an expired block the entry is removed and the window
logic purges everything older than the window; the fresh slate (next call
Admitted on an empty window) is guaranteed when block_duration is at least
window_seconds, given that every recorded timestamp predates the block
creation instant blocked_until - block_duration. -/
theorem rateLimiter_block_expiry (rl : RateLimiter) (c : String)
    (now bu : Int)
    (hblk : rl.blocked c = some bu)
    (hexp : bu ≤ now)
    (hmax : 0 < rl.max_requests)
    (hDW : rl.window_seconds ≤ rl.block_duration)
    (hold : ∀ x ∈ rl.requests c, x + rl.block_duration ≤ bu) :
    (is_allowed rl c now).allowed = true ∧
    (is_allowed rl c now).state.blocked c = none ∧
    (is_allowed rl c now).state.requests c = [now] := by
  have hfilter : (rl.requests c).filter
      (fun ts => decide (now - rl.window_seconds < ts)) = [] := by
    apply List.filter_eq_nil_iff.mpr
    intro x hx
    have := hold x hx
    simp only [decide_eq_true_eq]
    omega
  unfold is_allowed
  rw [hblk]
  simp only [Int.not_lt.mpr hexp, if_false]
  unfold is_allowed_window cleanup_old_requests removeBlock
  simp only [updF_same]
  rw [hfilter]
  simp [Nat.pos_iff_ne_zero.mp hmax, updF_same]

/-- Witness for C2 amended: block until 5 with duration 5 and window 3,
timestamp 0 recorded before the block; at instant 6 the call is Admitted on
a fresh window. -/
theorem rateLimiter_block_expiry_witness :
    (is_allowed
      { max_requests := 1, window_seconds := 3, block_duration := 5
      , requests := updF (fun _ => []) "c" [0]
      , blocked := updF (fun _ => none) "c" (some 5) } "c" 6).allowed = true ∧
    (is_allowed
      { max_requests := 1, window_seconds := 3, block_duration := 5
      , requests := updF (fun _ => []) "c" [0]
      , blocked := updF (fun _ => none) "c" (some 5) } "c" 6).state.blocked "c"
        = none ∧
    (is_allowed
      { max_requests := 1, window_seconds := 3, block_duration := 5
      , requests := updF (fun _ => []) "c" [0]
      , blocked := updF (fun _ => none) "c" (some 5) } "c" 6).state.requests "c"
        = [6] :=
  rateLimiter_block_expiry _ "c" 6 5 rfl (by decide) (by decide) (by decide)
    (by intro x hx; simp [updF_same] at hx; subst hx; decide)

/-! ## Claim C4 -/

/-- C4: with an active block (now < blocked_until) the check returns Denied,
the message carries retry_after = blocked_until - now, and the whole state
(window store and block store of every client) is returned unchanged. -/
theorem rateLimiter_active_block_frame (rl : RateLimiter) (c : String)
    (now bu : Int) (hblk : rl.blocked c = some bu) (hlt : now < bu) :
    (is_allowed rl c now).allowed = false ∧
    (is_allowed rl c now).message =
      some ("Rate limit exceeded. Try again in " ++ toString (bu - now)
        ++ " seconds") ∧
    (is_allowed rl c now).state = rl := by
  rw [is_allowed_active_block rl c now bu hblk hlt]
  exact ⟨rfl, rfl, rfl⟩

/-- A limiter with an active block for client c until instant 10. -/
def rlActive : RateLimiter :=
  { max_requests := 3
  , window_seconds := 60
  , block_duration := 30
  , requests := updF (fun _ => []) "c" [1, 2]
  , blocked := updF (fun _ => none) "c" (some 10) }

/-- Witness for C4 at instant 4: denied, retry after 6 seconds, untouched
state. -/
theorem rateLimiter_active_block_frame_witness :
    (is_allowed rlActive "c" 4).allowed = false ∧
    (is_allowed rlActive "c" 4).message =
      some ("Rate limit exceeded. Try again in " ++ toString ((10 : Int) - 4)
        ++ " seconds") ∧
    (is_allowed rlActive "c" 4).state = rlActive :=
  rateLimiter_active_block_frame rlActive "c" 4 10 rfl (by decide)

/-! ## Claim C10 -/

/-- The window-size invariant: no client ever holds more than max_requests
timestamps. -/
def WindowInv (rl : RateLimiter) : Prop :=
  ∀ c, (rl.requests c).length ≤ rl.max_requests

theorem windowInv_is_allowed_window (rl : RateLimiter) (c : String) (now : Int)
    (h : WindowInv rl) : WindowInv (is_allowed_window rl c now).state := by
  unfold is_allowed_window cleanup_old_requests
  simp only [updF_same]
  split
  · intro c2
    by_cases hc : c2 = c
    · subst hc
      simp only [updF_same]
      exact le_trans (List.length_filter_le _ _) (h c2)
    · simp only [updF_other _ _ _ _ hc]
      exact h c2
  · intro c2
    by_cases hc : c2 = c
    · subst hc
      simp only [updF_same, updF_updF, List.length_append, List.length_singleton]
      omega
    · simp only [updF_other _ _ _ _ hc]
      exact h c2

/-- C10: both is_allowed and clear preserve the invariant that every
per-client window holds at most max_requests timestamps. -/
theorem rateLimiter_window_bound (rl : RateLimiter) (c : String) (now : Int)
    (h : WindowInv rl) :
    WindowInv (is_allowed rl c now).state ∧ WindowInv rl.clear := by
  constructor
  · unfold is_allowed
    cases hblk : rl.blocked c with
    | some bu =>
        by_cases hlt : now < bu
        · simpa [hlt] using h
        · simp only [hlt, if_false]
          exact windowInv_is_allowed_window _ c now (by intro c2; exact h c2)
    | none => exact windowInv_is_allowed_window _ c now h
  · intro c2
    simp [RateLimiter.clear]

/-- Witness for C10 on a fresh limiter. -/
theorem rateLimiter_window_bound_witness :
    WindowInv (is_allowed rlFresh2 "a" 0).state ∧ WindowInv rlFresh2.clear :=
  rateLimiter_window_bound rlFresh2 "a" 0 (fun _ => Nat.zero_le _)

/-! ## Claim C3 : RateLimitMiddleware (src/app/security.py) -/

/-- The paths that bypass rate limiting. -/
def bypassPaths : List String := ["/health", "/docs", "/redoc", "/openapi.json"]

/-- Result of RateLimitMiddleware.rate_limit_middleware: either the request
is forwarded to call_next, or a 429 JSON response is returned whose headers
carry Retry-After. -/
inductive MiddlewareResult where
  | forwarded (state : RateLimiter)
  | denied (status : Nat) (detail : String) (retryAfter : String)
      (state : RateLimiter)

/-- RateLimitMiddleware.rate_limit_middleware. On denial the Retry-After
header is str(_rate_limiter.block_duration). -/
def rate_limit_middleware (testing : Bool) (rl : RateLimiter) (path : String)
    (client : String) (now : Int) : MiddlewareResult :=
  if testing then .forwarded rl
  else if path ∈ bypassPaths then .forwarded rl
  else
    let o := is_allowed rl client now
    if o.allowed then .forwarded o.state
    else .denied 429 (o.message.getD "Too many requests")
      (toString rl.block_duration) o.state

/-- The Retry-After header value of a middleware result. -/
def MiddlewareResult.retryAfterHeader : MiddlewareResult → Option String
  | .forwarded _ => none
  | .denied _ _ r _ => some r

/-- A limiter with block duration 300 and an active block for client c until
instant 10 (so at instant 5 the remaining block time is 5 seconds). -/
def rlC3 : RateLimiter :=
  { max_requests := 100
  , window_seconds := 60
  , block_duration := 300
  , requests := fun _ => []
  , blocked := updF (fun _ => none) "c" (some 10) }

/-- C3 counterexample: a denial during an active block (a subsequent denied
call, not the first breach) carries Retry-After 300 = block_duration, not
the remaining block time 10 - 5 = 5 the claim requires. -/
theorem retry_after_header_cex :
    rlC3.blocked "c" = some 10 ∧
    (is_allowed rlC3 "c" 5).allowed = false ∧
    (rate_limit_middleware false rlC3 "/users" "c" 5).retryAfterHeader =
      some "300" ∧
    toString ((10 : Int) - 5) = "5" ∧
    ("300" : String) ≠ "5" := by
  refine ⟨rfl, by decide, by decide, by decide, by decide⟩

/-- C3 amended: every rate-limit denial response carries a Retry-After
header equal to the configured block duration, on the first breach and on
every subsequent denied call alike. -/
theorem retry_after_header_const (rl : RateLimiter) (path client : String)
    (now : Int)
    (hpath : path ∉ bypassPaths)
    (hdenied : (is_allowed rl client now).allowed = false) :
    (rate_limit_middleware false rl path client now).retryAfterHeader =
      some (toString rl.block_duration) := by
  unfold rate_limit_middleware
  simp [hpath, hdenied, MiddlewareResult.retryAfterHeader]

/-- Witness for C3 amended, on the same active-block state. -/
theorem retry_after_header_const_witness :
    (rate_limit_middleware false rlC3 "/users" "c" 5).retryAfterHeader =
      some (toString rlC3.block_duration) :=
  retry_after_header_const rlC3 "/users" "c" 5 (by decide) (by decide)

/-! ## Error pipeline (src/app/main.py, src/app/security.py)

Response headers are modelled as association lists; header assignment
(MutableHeaders setitem in the framework) replaces an existing entry or
appends a new one. -/

/-- Header assignment: response.headers[k] = v. -/
def setHeader (hs : List (String × String)) (k v : String) :
    List (String × String) :=
  if hs.any (fun p => p.1 = k) then
    hs.map (fun p => if p.1 = k then (k, v) else p)
  else hs ++ [(k, v)]

/-- First value of a header, if present. -/
def lookupHeader (hs : List (String × String)) (k : String) : Option String :=
  match hs with
  | [] => none
  | p :: rest => if p.1 = k then some p.2 else lookupHeader rest k

theorem lookupHeader_map_replace (hs : List (String × String)) (k v : String)
    (h : hs.any (fun p => decide (p.1 = k)) = true) :
    lookupHeader (hs.map (fun p => if p.1 = k then (k, v) else p)) k =
      some v := by
  induction hs with
  | nil => cases h
  | cons p rest ih =>
      by_cases hp : p.1 = k
      · simp [lookupHeader, hp]
      · have hrest : rest.any (fun p => decide (p.1 = k)) = true := by
          simpa [List.any_cons, hp] using h
        simpa [lookupHeader, hp] using ih hrest

theorem lookupHeader_append_new (hs : List (String × String)) (k v : String)
    (h : hs.any (fun p => decide (p.1 = k)) = false) :
    lookupHeader (hs ++ [(k, v)]) k = some v := by
  induction hs with
  | nil => simp [lookupHeader]
  | cons p rest ih =>
      have hp : ¬ (p.1 = k) := by
        intro hc
        simp [List.any_cons, hc] at h
      have hrest : rest.any (fun p => decide (p.1 = k)) = false := by
        simpa [List.any_cons, hp] using h
      simpa [lookupHeader, hp] using ih hrest

theorem lookupHeader_setHeader_same (hs : List (String × String))
    (k v : String) : lookupHeader (setHeader hs k v) k = some v := by
  unfold setHeader
  by_cases hany : hs.any (fun p => decide (p.1 = k)) = true
  · rw [if_pos hany]
    exact lookupHeader_map_replace hs k v hany
  · rw [if_neg hany]
    exact lookupHeader_append_new hs k v (Bool.eq_false_iff.mpr hany)

theorem lookupHeader_map_replace_other (hs : List (String × String))
    (k v k2 : String) (hne : k2 ≠ k) :
    lookupHeader (hs.map (fun p => if p.1 = k then (k, v) else p)) k2 =
      lookupHeader hs k2 := by
  induction hs with
  | nil => rfl
  | cons p rest ih =>
      by_cases hp : p.1 = k
      · have hk2 : ¬ (k = k2) := fun h => hne h.symm
        have hp2 : ¬ (p.1 = k2) := by rw [hp]; exact hk2
        simpa [lookupHeader, hp, hk2, hp2] using ih
      · by_cases hp2 : p.1 = k2
        · simp [lookupHeader, hp, hp2, hne]
        · simpa [lookupHeader, hp, hp2] using ih

theorem lookupHeader_append_other (hs : List (String × String))
    (k v k2 : String) (hne : k2 ≠ k) :
    lookupHeader (hs ++ [(k, v)]) k2 = lookupHeader hs k2 := by
  induction hs with
  | nil =>
      have : ¬ (k = k2) := fun h => hne h.symm
      simp [lookupHeader, this]
  | cons p rest ih =>
      by_cases hp2 : p.1 = k2
      · simp [lookupHeader, hp2]
      · simpa [lookupHeader, hp2] using ih

theorem lookupHeader_setHeader_other (hs : List (String × String))
    (k v k2 : String) (hne : k2 ≠ k) :
    lookupHeader (setHeader hs k v) k2 = lookupHeader hs k2 := by
  unfold setHeader
  by_cases hany : hs.any (fun p => decide (p.1 = k)) = true
  · rw [if_pos hany]
    exact lookupHeader_map_replace_other hs k v k2 hne
  · rw [if_neg hany]
    exact lookupHeader_append_other hs k v k2 hne

/-- A single apostrophe character, kept out of literals. -/
def sq : String := ⟨[Char.ofNat 39]⟩

/-- Wrap a word in apostrophes, as in the CSP source values. -/
def quoted (s : String) : String := sq ++ s ++ sq

/-- The fixed Content-Security-Policy string of
SecurityHeadersMiddleware.add_security_headers. -/
def cspValue : String :=
  "default-src " ++ quoted "self" ++ "; script-src " ++ quoted "none" ++
  "; object-src " ++ quoted "none" ++ "; base-uri " ++ quoted "self" ++
  "; form-action " ++ quoted "self"

/-- SecurityHeadersMiddleware.add_security_headers applied to the headers of
an already-computed response; production is the ENVIRONMENT == production
test. -/
def add_security_headers (production : Bool) (hs : List (String × String)) :
    List (String × String) :=
  let h1 := setHeader hs "X-Content-Type-Options" "nosniff"
  let h2 := setHeader h1 "X-Frame-Options" "DENY"
  let h3 := setHeader h2 "X-XSS-Protection" "1; mode=block"
  let h4 := if production then
      setHeader h3 "Strict-Transport-Security" "max-age=31536000; includeSubDomains"
    else h3
  let h5 := setHeader h4 "Referrer-Policy" "strict-origin-when-cross-origin"
  setHeader h5 "Content-Security-Policy" cspValue

/-- The predefined ERROR_TYPES dict of src/app/security.py. -/
def ERROR_TYPES : List (String × String) :=
  [ ("validation_error", "https://api.choretracker.com/errors/validation-error")
  , ("authentication_error",
      "https://api.choretracker.com/errors/authentication-error")
  , ("authorization_error",
      "https://api.choretracker.com/errors/authorization-error")
  , ("not_found_error", "https://api.choretracker.com/errors/not-found-error")
  , ("internal_error", "https://api.choretracker.com/errors/internal-error")
  , ("rate_limit_error", "https://api.choretracker.com/errors/rate-limit-error") ]

/-- ERROR_TYPES[k] (all uses in the source index existing keys). -/
def errorType (k : String) : String := ((ERROR_TYPES.lookup k).getD "")

/-- The RFC 7807 ErrorResponse of src/app/security.py; the source field
instance is named instanceUrl here (Lean keyword). -/
structure ErrorResponse where
  type : String
  title : String
  status : Nat
  detail : String
  instanceUrl : String
  correlation_id : String
  timestamp : String

/-- ErrorResponse.dict: the JSON body, as key/value pairs in source order. -/
def ErrorResponse.dict (e : ErrorResponse) : List (String × String) :=
  [ ("type", e.type), ("title", e.title), ("status", toString e.status)
  , ("detail", e.detail), ("instance", e.instanceUrl)
  , ("correlation_id", e.correlation_id), ("timestamp", e.timestamp) ]

/-- Return value of create_error_response. -/
structure ErrorResponsePayload where
  status_code : Nat
  content : ErrorResponse
  headers : List (String × String)

/-- create_error_response (src/app/security.py): when no correlation id is
passed, a fresh uuid4 is drawn (freshUuid); nowIso is the
datetime.utcnow().isoformat() stamp. -/
def create_error_response (url : String) (error_type title detail : String)
    (status_code : Nat) (correlation_id : Option String)
    (freshUuid nowIso : String) : ErrorResponsePayload :=
  let cid := correlation_id.getD freshUuid
  { status_code := status_code
  , content :=
      { type := error_type, title := title, status := status_code
      , detail := detail, instanceUrl := url, correlation_id := cid
      , timestamp := nowIso }
  , headers := [("X-Correlation-ID", cid)] }

/-- The failures the pipeline can see: the exception classes handled in
src/app/main.py, plus request-validation failures (pydantic) and arbitrary
unexpected exceptions. httpExc detail is none when exc.detail is not a
string. -/
inductive Failure where
  | apiError (code message : String) (status : Nat)
  | secureHttp (error_type title detail : String) (status : Nat)
      (correlation_id : String)
  | httpExc (status : Nat) (detail : Option String)
  | validationError (messages : List String)
  | unexpected (excText : String)

/-- Bodies a pipeline response can carry: the seven-field envelope of the
registered handlers, or the default body of the framework validation
handler (a bare detail list; no handler for RequestValidationError is
registered in main.py, so the framework default applies — modelled from the
documented framework behavior). -/
inductive ResponseBody where
  | envelope (e : ErrorResponse)
  | validationDetail (messages : List String)

/-- The top-level JSON keys of a body. -/
def ResponseBody.keys : ResponseBody → List String
  | .envelope e => e.dict.map Prod.fst
  | .validationDetail _ => ["detail"]

/-- The correlation_id field of a body, when the body is an envelope. -/
def ResponseBody.correlationId : ResponseBody → Option String
  | .envelope e => some e.correlation_id
  | .validationDetail _ => none

/-- A response as produced by an exception handler, before middlewares. -/
structure PipelineResponse where
  status : Nat
  body : ResponseBody
  headers : List (String × String)

/-- The envelope type field, when the body is an envelope. -/
def PipelineResponse.envelopeType (r : PipelineResponse) : Option String :=
  match r.body with
  | .envelope e => some e.type
  | .validationDetail _ => none

/-- The envelope detail field, when the body is an envelope. -/
def PipelineResponse.envelopeDetail (r : PipelineResponse) : Option String :=
  match r.body with
  | .envelope e => some e.detail
  | .validationDetail _ => none

/-- Exception-handler dispatch of main.py: api_error_handler,
secure_http_exception_handler, http_exception_handler,
general_exception_handler, and for RequestValidationError the framework
default 422 response. -/
def handleFailure (url : String) (f : Failure) (freshUuid nowIso : String) :
    PipelineResponse :=
  match f with
  | .apiError _ message status =>
      let p := create_error_response url (errorType "validation_error")
        "API Error" message status none freshUuid nowIso
      ⟨p.status_code, .envelope p.content, p.headers⟩
  | .secureHttp t ti d s cid =>
      let p := create_error_response url t ti d s (some cid) freshUuid nowIso
      ⟨p.status_code, .envelope p.content, p.headers⟩
  | .httpExc s d =>
      let detail := d.getD "http_error"
      let tp := if s = 404 then errorType "not_found_error"
        else if s = 401 then errorType "authentication_error"
        else if s = 403 then errorType "authorization_error"
        else errorType "internal_error"
      let ti := if s = 404 then "Not Found"
        else if s = 401 then "Authentication Error"
        else if s = 403 then "Authorization Error"
        else "Internal Server Error"
      let p := create_error_response url tp ti detail s none freshUuid nowIso
      ⟨p.status_code, .envelope p.content, p.headers⟩
  | .validationError msgs => ⟨422, .validationDetail msgs, []⟩
  | .unexpected _ =>
      let p := create_error_response url (errorType "internal_error")
        "Internal Server Error" "An unexpected error occurred" 500 none
        freshUuid nowIso
      ⟨p.status_code, .envelope p.content, p.headers⟩

/-- add_correlation_id middleware of main.py: after the inner response is
computed, response.headers[X-Correlation-ID] is set to the inbound header
value, or to a uuid4 drawn at request start. -/
def add_correlation_id (inbound : Option String) (freshA : String)
    (resp : PipelineResponse) : PipelineResponse :=
  { resp with
    headers := setHeader resp.headers "X-Correlation-ID" (inbound.getD freshA) }

/-- The full pipeline for a failing request: the middleware draws freshA at
request start, the handler (through create_error_response) draws freshB. -/
def processFailure (inbound : Option String) (url : String) (f : Failure)
    (freshA freshB nowIso : String) : PipelineResponse :=
  add_correlation_id inbound freshA (handleFailure url f freshB nowIso)

/-! ## Claim C5 -/

/-- C5 counterexample: for a 404 failure with no inbound correlation header,
the middleware mints uuid-A (the value echoed in the X-Correlation-ID
response header) while create_error_response independently mints uuid-B
(the value placed in the envelope body); the two uuid4 draws are distinct,
so the envelope correlation_id does not match the response header. -/
theorem correlation_mismatch_cex :
    (processFailure none "/users/99999" (.httpExc 404 (some "User not found"))
      "uuid-A" "uuid-B" "2026-01-01T00:00:00").body.correlationId =
        some "uuid-B" ∧
    lookupHeader (processFailure none "/users/99999"
      (.httpExc 404 (some "User not found"))
      "uuid-A" "uuid-B" "2026-01-01T00:00:00").headers "X-Correlation-ID" =
        some "uuid-A" ∧
    ("uuid-B" : String) ≠ "uuid-A" := by
  refine ⟨by decide, by decide, by decide⟩

/-- C5 amended: for every failure handled by a registered handler (all
failures except request-validation ones, which get the framework default
body), the response body is the full seven-field envelope; the
X-Correlation-ID response header always carries the middleware value
(inbound header if present, else the uuid drawn at request start), while
the envelope correlation_id is drawn independently inside the handler (or
carried by a SecureHTTPException) and need not equal the header. -/
theorem pipeline_envelope_and_header (inbound : Option String) (url : String)
    (f : Failure) (freshA freshB nowIso : String)
    (hnotval : ∀ msgs, f ≠ .validationError msgs) :
    (processFailure inbound url f freshA freshB nowIso).body.keys =
      ["type", "title", "status", "detail", "instance", "correlation_id",
        "timestamp"] ∧
    lookupHeader (processFailure inbound url f freshA freshB nowIso).headers
      "X-Correlation-ID" = some (inbound.getD freshA) := by
  cases f with
  | validationError msgs => exact absurd rfl (hnotval msgs)
  | apiError code message status =>
      exact ⟨rfl, by
        simp [processFailure, add_correlation_id, lookupHeader_setHeader_same]⟩
  | secureHttp t ti d s cid =>
      exact ⟨rfl, by
        simp [processFailure, add_correlation_id, lookupHeader_setHeader_same]⟩
  | httpExc s d =>
      exact ⟨rfl, by
        simp [processFailure, add_correlation_id, lookupHeader_setHeader_same]⟩
  | unexpected excText =>
      exact ⟨rfl, by
        simp [processFailure, add_correlation_id, lookupHeader_setHeader_same]⟩

/-- Witness for C5 amended at a 404 failure with an inbound header. -/
theorem pipeline_envelope_and_header_witness :
    (processFailure (some "client-id") "/users/7" (.httpExc 404 none)
      "u1" "u2" "T").body.keys =
      ["type", "title", "status", "detail", "instance", "correlation_id",
        "timestamp"] ∧
    lookupHeader (processFailure (some "client-id") "/users/7"
      (.httpExc 404 none) "u1" "u2" "T").headers "X-Correlation-ID" =
      some ((some "client-id").getD "u1") :=
  pipeline_envelope_and_header (some "client-id") "/users/7"
    (.httpExc 404 none) "u1" "u2" "T" (fun _ h => Failure.noConfusion h)

/-! ## Claim C6 -/

/-- C6: http_exception_handler classifies by status exactly as the table
404 to not-found, 401 to authentication, 403 to authorization, anything
else to internal; general_exception_handler maps every unexpected failure
to the internal category at status 500 with the fixed generic detail,
independent of the exception text. -/
theorem error_classification_total (url : String) (d : Option String)
    (freshUuid nowIso : String) (s : Nat) (excText : String) :
    (handleFailure url (.httpExc s d) freshUuid nowIso).envelopeType =
      some (if s = 404 then "https://api.choretracker.com/errors/not-found-error"
        else if s = 401 then
          "https://api.choretracker.com/errors/authentication-error"
        else if s = 403 then
          "https://api.choretracker.com/errors/authorization-error"
        else "https://api.choretracker.com/errors/internal-error") ∧
    (handleFailure url (.httpExc s d) freshUuid nowIso).status = s ∧
    (handleFailure url (.unexpected excText) freshUuid nowIso).status = 500 ∧
    (handleFailure url (.unexpected excText) freshUuid nowIso).envelopeType =
      some "https://api.choretracker.com/errors/internal-error" ∧
    (handleFailure url (.unexpected excText) freshUuid nowIso).envelopeDetail =
      some "An unexpected error occurred" := by
  refine ⟨?_, rfl, rfl, rfl, rfl⟩
  by_cases h4 : s = 404
  · subst h4; rfl
  · by_cases h1 : s = 401
    · subst h1; rfl
    · by_cases h3 : s = 403
      · subst h3; rfl
      · simp only [handleFailure, PipelineResponse.envelopeType, h4, h1, h3,
          if_false]
        rfl

/-! ## Claim C7 -/

/-- The error path of create_user in src/app/api.py: a ValueError from the
service layer (for instance the duplicate-email business rule in
src/app/services.py) is re-raised as a SecureHTTPException with the
validation_error type, title Validation Error, and status 400. -/
def create_user_failure (message correlation_id : String) : Failure :=
  .secureHttp (errorType "validation_error") "Validation Error" message 400
    correlation_id

/-- C7 counterexample: a request-validation failure produces status 422
with the framework default body, whose only key is detail — not the
seven-field envelope that the business-rule 400 response carries, so the
two responses do not share the envelope shape. -/
theorem validation_shape_cex :
    (processFailure none "/users" (.validationError ["value is not a valid email address"])
      "u1" "u2" "T").status = 422 ∧
    (processFailure none "/users" (.validationError ["value is not a valid email address"])
      "u1" "u2" "T").body.keys = ["detail"] ∧
    (processFailure none "/users"
      (create_user_failure "User with this email already exists" "cid")
      "u1" "u2" "T").status = 400 ∧
    (processFailure none "/users"
      (create_user_failure "User with this email already exists" "cid")
      "u1" "u2" "T").body.keys =
      ["type", "title", "status", "detail", "instance", "correlation_id",
        "timestamp"] ∧
    (["detail"] : List String) ≠
      ["type", "title", "status", "detail", "instance", "correlation_id",
        "timestamp"] := by
  refine ⟨rfl, rfl, rfl, rfl, by decide⟩

/-- C7 amended: every request-validation failure surfaces at status 422
with the framework default body (only key: detail, not the envelope);
every business-rule failure of create_user surfaces at status 400 with the
full seven-field envelope typed as the validation-error category. The
envelope shape is shared only among the responses of the registered
handlers, not by the 422 validation response. -/
theorem validation_vs_business_shape (inbound : Option String)
    (url : String) (msgs : List String) (message cid : String)
    (freshA freshB nowIso : String) :
    (processFailure inbound url (.validationError msgs)
      freshA freshB nowIso).status = 422 ∧
    (processFailure inbound url (.validationError msgs)
      freshA freshB nowIso).body.keys = ["detail"] ∧
    (processFailure inbound url (create_user_failure message cid)
      freshA freshB nowIso).status = 400 ∧
    (processFailure inbound url (create_user_failure message cid)
      freshA freshB nowIso).body.keys =
      ["type", "title", "status", "detail", "instance", "correlation_id",
        "timestamp"] ∧
    (processFailure inbound url (create_user_failure message cid)
      freshA freshB nowIso).envelopeType =
      some "https://api.choretracker.com/errors/validation-error" ∧
    (processFailure inbound url (create_user_failure message cid)
      freshA freshB nowIso).envelopeDetail = some message := by
  refine ⟨rfl, rfl, rfl, rfl, ?_, rfl⟩
  simp [processFailure, handleFailure, create_user_failure, errorType,
    ERROR_TYPES, create_error_response, add_correlation_id,
    PipelineResponse.envelopeType]

/-! ## Claim C9 -/

/-- The middleware stack actually registered on the app in src/app/main.py:
CORSMiddleware (adds only Access-Control and Vary headers, not modelled)
and add_correlation_id. SecurityHeadersMiddleware and RateLimitMiddleware
are defined in src/app/security.py but never added to the app, so a
successful handler response (empty header list) passes only through the
correlation middleware. -/
def appSuccessHeaders (inbound : Option String) (freshA : String) :
    List (String × String) :=
  setHeader [] "X-Correlation-ID" (inbound.getD freshA)

/-- C9: the application never registers SecurityHeadersMiddleware, so no
response of the modelled app carries X-Content-Type-Options (nor the other
security headers), although add_security_headers itself would set every
one of them — the function exists but is dead code. The first conjunct
contradicts the claim; the rest documents what the unregistered middleware
would do (including the production-only Strict-Transport-Security). -/
theorem security_headers_not_registered :
    (∀ (inbound : Option String) (freshA : String),
      lookupHeader (appSuccessHeaders inbound freshA) "X-Content-Type-Options"
        = none ∧
      lookupHeader (appSuccessHeaders inbound freshA) "Content-Security-Policy"
        = none ∧
      lookupHeader (appSuccessHeaders inbound freshA) "X-Frame-Options"
        = none) ∧
    (∀ hs : List (String × String),
      lookupHeader (add_security_headers false hs) "X-Content-Type-Options" =
        some "nosniff" ∧
      lookupHeader (add_security_headers false hs) "X-Frame-Options" =
        some "DENY" ∧
      lookupHeader (add_security_headers false hs) "X-XSS-Protection" =
        some "1; mode=block" ∧
      lookupHeader (add_security_headers false hs) "Referrer-Policy" =
        some "strict-origin-when-cross-origin" ∧
      lookupHeader (add_security_headers false hs) "Content-Security-Policy" =
        some cspValue ∧
      lookupHeader (add_security_headers true hs) "Strict-Transport-Security" =
        some "max-age=31536000; includeSubDomains" ∧
      lookupHeader (add_security_headers false hs) "Strict-Transport-Security" =
        lookupHeader hs "Strict-Transport-Security") := by
  constructor
  · intro inbound freshA
    cases inbound <;> exact ⟨rfl, rfl, rfl⟩
  · intro hs
    have etrue : add_security_headers true hs =
        setHeader (setHeader (setHeader (setHeader (setHeader (setHeader hs
          "X-Content-Type-Options" "nosniff") "X-Frame-Options" "DENY")
          "X-XSS-Protection" "1; mode=block")
          "Strict-Transport-Security" "max-age=31536000; includeSubDomains")
          "Referrer-Policy" "strict-origin-when-cross-origin")
          "Content-Security-Policy" cspValue := rfl
    have efalse : add_security_headers false hs =
        setHeader (setHeader (setHeader (setHeader (setHeader hs
          "X-Content-Type-Options" "nosniff") "X-Frame-Options" "DENY")
          "X-XSS-Protection" "1; mode=block")
          "Referrer-Policy" "strict-origin-when-cross-origin")
          "Content-Security-Policy" cspValue := rfl
    simp only [etrue, efalse]
    refine ⟨?_, ?_, ?_, ?_, ?_, ?_, ?_⟩
    · rw [lookupHeader_setHeader_other _ _ _ _ (by decide),
        lookupHeader_setHeader_other _ _ _ _ (by decide),
        lookupHeader_setHeader_other _ _ _ _ (by decide),
        lookupHeader_setHeader_other _ _ _ _ (by decide),
        lookupHeader_setHeader_same]
    · rw [lookupHeader_setHeader_other _ _ _ _ (by decide),
        lookupHeader_setHeader_other _ _ _ _ (by decide),
        lookupHeader_setHeader_other _ _ _ _ (by decide),
        lookupHeader_setHeader_same]
    · rw [lookupHeader_setHeader_other _ _ _ _ (by decide),
        lookupHeader_setHeader_other _ _ _ _ (by decide),
        lookupHeader_setHeader_same]
    · rw [lookupHeader_setHeader_other _ _ _ _ (by decide),
        lookupHeader_setHeader_same]
    · rw [lookupHeader_setHeader_same]
    · rw [lookupHeader_setHeader_other _ _ _ _ (by decide),
        lookupHeader_setHeader_other _ _ _ _ (by decide),
        lookupHeader_setHeader_same]
    · rw [lookupHeader_setHeader_other _ _ _ _ (by decide),
        lookupHeader_setHeader_other _ _ _ _ (by decide),
        lookupHeader_setHeader_other _ _ _ _ (by decide),
        lookupHeader_setHeader_other _ _ _ _ (by decide),
        lookupHeader_setHeader_other _ _ _ _ (by decide)]

/-! ## Sanitizer (src/app/security.py, InputValidator.sanitize_string)

The source applies a fixed sequence of re.sub(pattern, "", ...) calls. Each
substitution is modelled character-exactly: a matcher returns the number of
characters a match starting at the head of the list consumes (following the
greedy/lazy backtracking order of the specific pattern), and reSubDel scans
left to right, deleting each leftmost match and resuming after it, exactly
like re.sub with an empty replacement. The character classes are modelled
over ASCII (the inputs of all verified claims are ASCII). -/

/-- The whitespace class of the patterns and of str.strip. -/
def isPySpace (c : Char) : Bool :=
  c = ' ' || c = '\t' || c = '\n' || c = '\r' ||
  c = Char.ofNat 11 || c = Char.ofNat 12

/-- The word class of the on-event pattern. -/
def isWordChar (c : Char) : Bool := c.isAlphanum || c = '_'

/-- A matcher consuming a prefix: number of characters consumed plus the
rest of the input. -/
abbrev Matcher := List Char → Option (Nat × List Char)

/-- Match one literal character, case-insensitively (ch given lowercase). -/
def mChar (ch : Char) : Matcher := fun l =>
  match l with
  | [] => none
  | c :: rest => if c.toLower = ch then some (1, rest) else none

/-- Match a literal word, case-insensitively (pattern given lowercase). -/
def mLit : List Char → Matcher
  | [], l => some (0, l)
  | _ :: _, [] => none
  | p :: ps, c :: rest =>
      if c.toLower = p then (mLit ps rest).map (fun r => (r.1 + 1, r.2))
      else none

/-- Match a maximal (greedy) run of characters of a class; with atLeastOne
the run must be nonempty (as in a + quantifier). -/
def mRun (p : Char → Bool) (atLeastOne : Bool) : Matcher := fun l =>
  let n := (l.takeWhile p).length
  if atLeastOne && decide (n = 0) then none else some (n, l.drop n)

/-- Sequential composition of matchers. -/
def mThen (a b : Matcher) : Matcher := fun l =>
  match a l with
  | none => none
  | some (n, r) =>
      match b r with
      | none => none
      | some (m, r2) => some (n + m, r2)

/-- Consumed length of a matcher. -/
def runM (m : Matcher) : List Char → Option Nat := fun l => (m l).map Prod.fst

/-- The match attempt of a backslash-s-plus followed by the literal from, at
the current position. -/
def matchFromAt (l : List Char) : Option Nat :=
  let n := (l.takeWhile isPySpace).length
  if n = 0 then none
  else (runM (mLit "from".toList) (l.drop n)).map (fun m => n + m)

/-- The tail of the SELECT pattern: dot-star (greedy, not crossing a
newline) then whitespace-plus then the literal from; deeper start positions
of the whitespace run are preferred, per greedy backtracking. -/
def dotStarWsFrom : List Char → Option Nat
  | [] => none
  | c :: rest =>
      if c = '\n' then matchFromAt (c :: rest)
      else
        match dotStarWsFrom rest with
        | some n => some (n + 1)
        | none => matchFromAt (c :: rest)

/-- Backtracking over the first whitespace-plus run of the SELECT pattern:
the run overlaps with the following dot-star, so shorter runs must be tried
(longest first) until the tail matches; i counts down over run lengths. -/
def tryFromWs : Nat → List Char → Option Nat
  | 0, _ => none
  | i + 1, l =>
      match dotStarWsFrom (l.drop (i + 1)) with
      | some n => some (i + 1 + n)
      | none => tryFromWs i l

/-- whitespace-plus (with backtracking) then dot-star whitespace-plus from,
as a matcher. -/
def mWsDotStarFrom : Matcher := fun l =>
  match tryFromWs ((l.takeWhile isPySpace).length) l with
  | some n => some (n, l.drop n)
  | none => none

/-- Lazy scan for the closing star-slash of a block comment; the dot-star
of the pattern cannot cross a newline (no DOTALL on the SQL patterns). -/
def findCommentClose : List Char → Option Nat
  | [] => none
  | c :: u =>
      if c = '*' ∧ u.head? = some '/' then some 2
      else if c = '\n' then none
      else (findCommentClose u).map (· + 1)

/-- The block-comment pattern slash-star dot-star-lazy star-slash. -/
def mBlockComment : List Char → Option Nat
  | [] => none
  | c :: u =>
      if c = '/' ∧ u.head? = some '*' then
        (findCommentClose u.tail).map (fun k => k + 2)
      else none

/-- The unpaired-markup pattern: an angle-open, one or more non-angle-close
characters (greedy), an angle-close. -/
def mTag : List Char → Option Nat
  | [] => none
  | c :: rest =>
      if c = '<' then
        if (rest.takeWhile (fun ch => ch != '>')).length = 0 then none
        else
          match rest.drop ((rest.takeWhile (fun ch => ch != '>')).length) with
          | '>' :: _ => some ((rest.takeWhile (fun ch => ch != '>')).length + 2)
          | _ => none
      else none

/-- Scan for the earliest closing tag (angle-open, slash, a greedy run of
non-angle-close characters, angle-close); a position where the run finds no
angle-close fails the whole match, since no later closing tag can find one
either. -/
def findClose : List Char → Option Nat
  | [] => none
  | c :: u =>
      if c = '<' ∧ u.head? = some '/' then
        match u.tail.drop ((u.tail.takeWhile (fun ch => ch != '>')).length) with
        | '>' :: _ =>
            some ((u.tail.takeWhile (fun ch => ch != '>')).length + 3)
        | _ => none
      else (findClose u).map (· + 1)

/-- The paired-markup pattern (applied with DOTALL): an opening tag, a lazy
dot-star, a closing tag. -/
def mScriptBlock : List Char → Option Nat
  | [] => none
  | c :: rest =>
      if c = '<' then
        match rest.drop ((rest.takeWhile (fun ch => ch != '>')).length) with
        | '>' :: rest2 =>
            (findClose rest2).map
              (fun k => (rest.takeWhile (fun ch => ch != '>')).length + 2 + k)
        | _ => none
      else none

/-- javascript: -/
def mJavascriptUri : Matcher := mLit "javascript:".toList

/-- alert ws* ( -/
def mAlertCall : Matcher :=
  mThen (mLit "alert".toList) (mThen (mRun isPySpace false) (mChar '('))

/-- eval ws* ( -/
def mEvalCall : Matcher :=
  mThen (mLit "eval".toList) (mThen (mRun isPySpace false) (mChar '('))

/-- exec ws* ( -/
def mExecCall : Matcher :=
  mThen (mLit "exec".toList) (mThen (mRun isPySpace false) (mChar '('))

/-- document. -/
def mDocumentDot : Matcher := mLit "document.".toList

/-- window. -/
def mWindowDot : Matcher := mLit "window.".toList

/-- on word+ ws* = -/
def mOnEvent : Matcher :=
  mThen (mLit "on".toList)
    (mThen (mRun isWordChar true) (mThen (mRun isPySpace false) (mChar '=')))

/-- DROP ws+ TABLE -/
def mDropTable : Matcher :=
  mThen (mLit "drop".toList) (mThen (mRun isPySpace true) (mLit "table".toList))

/-- DELETE ws+ FROM -/
def mDeleteFrom : Matcher :=
  mThen (mLit "delete".toList) (mThen (mRun isPySpace true) (mLit "from".toList))

/-- INSERT ws+ INTO -/
def mInsertInto : Matcher :=
  mThen (mLit "insert".toList) (mThen (mRun isPySpace true) (mLit "into".toList))

/-- UPDATE ws+ SET -/
def mUpdateSet : Matcher :=
  mThen (mLit "update".toList) (mThen (mRun isPySpace true) (mLit "set".toList))

/-- SELECT ws+ dot-star ws+ FROM -/
def mSelectFrom : Matcher :=
  mThen (mLit "select".toList) mWsDotStarFrom

/-- UNION ws+ SELECT -/
def mUnionSelect : Matcher :=
  mThen (mLit "union".toList) (mThen (mRun isPySpace true) (mLit "select".toList))

/-- OR ws+ 1 ws* = ws* 1 -/
def mOrTautology : Matcher :=
  mThen (mLit "or".toList) (mThen (mRun isPySpace true) (mThen (mChar '1')
    (mThen (mRun isPySpace false) (mThen (mChar '=')
      (mThen (mRun isPySpace false) (mChar '1'))))))

/-- AND ws+ 1 ws* = ws* 1 -/
def mAndTautology : Matcher :=
  mThen (mLit "and".toList) (mThen (mRun isPySpace true) (mThen (mChar '1')
    (mThen (mRun isPySpace false) (mThen (mChar '=')
      (mThen (mRun isPySpace false) (mChar '1'))))))

/-- ; ws* -- -/
def mCommentTerminator : Matcher :=
  mThen (mChar ';') (mThen (mRun isPySpace false) (mLit "--".toList))

/-- Fuel-driven scan of re.sub(pattern, "", s); the fuel only bounds the
recursion depth and is immaterial whenever it is at least the input length
(reSubDelFuel_congr below). -/
def reSubDelFuel (m : List Char → Option Nat) : Nat → List Char → List Char
  | 0, l => l
  | _, [] => []
  | fuel + 1, c :: rest =>
      match m (c :: rest) with
      | some (n + 1) => reSubDelFuel m fuel (rest.drop n)
      | _ => c :: reSubDelFuel m fuel rest

/-- re.sub(pattern, "", s): delete every leftmost match, resuming after the
deleted span; none of the source patterns can match an empty span. -/
def reSubDel (m : List Char → Option Nat) (l : List Char) : List Char :=
  reSubDelFuel m l.length l

theorem reSubDelFuel_congr (m : List Char → Option Nat) :
    ∀ (f1 : Nat) (f2 : Nat) (l : List Char), l.length ≤ f1 → l.length ≤ f2 →
    reSubDelFuel m f1 l = reSubDelFuel m f2 l := by
  intro f1
  induction f1 with
  | zero =>
      intro f2 l h1 _
      have : l = [] := List.length_eq_zero.mp (Nat.le_zero.mp h1)
      subst this
      cases f2 <;> rfl
  | succ g1 ih =>
      intro f2 l h1 h2
      cases l with
      | nil => cases f2 <;> rfl
      | cons c rest =>
          cases f2 with
          | zero => simp at h2
          | succ g2 =>
              show (match m (c :: rest) with
                | some (n + 1) => reSubDelFuel m g1 (rest.drop n)
                | _ => c :: reSubDelFuel m g1 rest) =
                (match m (c :: rest) with
                | some (n + 1) => reSubDelFuel m g2 (rest.drop n)
                | _ => c :: reSubDelFuel m g2 rest)
              simp only [List.length_cons] at h1 h2
              cases hm : m (c :: rest) with
              | none =>
                  dsimp only
                  rw [ih g2 rest (by omega) (by omega)]
              | some k =>
                  cases k with
                  | zero =>
                      dsimp only
                      rw [ih g2 rest (by omega) (by omega)]
                  | succ n =>
                      dsimp only
                      rw [ih g2 (rest.drop n)
                        (by simp [List.length_drop]; omega)
                        (by simp [List.length_drop]; omega)]

theorem reSubDel_nil (m : List Char → Option Nat) : reSubDel m [] = [] := rfl

theorem reSubDel_cons (m : List Char → Option Nat) (c : Char)
    (rest : List Char) :
    reSubDel m (c :: rest) =
      match m (c :: rest) with
      | some (n + 1) => reSubDel m (rest.drop n)
      | _ => c :: reSubDel m rest := by
  show (match m (c :: rest) with
    | some (n + 1) => reSubDelFuel m rest.length (rest.drop n)
    | _ => c :: reSubDelFuel m rest.length rest) = _
  cases hm : m (c :: rest) with
  | none => rfl
  | some k =>
      cases k with
      | zero => rfl
      | succ n =>
          dsimp only
          exact reSubDelFuel_congr m rest.length (rest.drop n).length
            (rest.drop n) (by simp [List.length_drop]) (le_refl _)

/-- The dangerous_patterns list, in source order. -/
def dangerousMatchers : List (List Char → Option Nat) :=
  [ runM mJavascriptUri, runM mAlertCall, runM mEvalCall, runM mExecCall
  , runM mDocumentDot, runM mWindowDot, runM mOnEvent ]

/-- The sql_patterns list, in source order. -/
def sqlMatchers : List (List Char → Option Nat) :=
  [ runM mDropTable, runM mDeleteFrom, runM mInsertInto, runM mUpdateSet
  , runM mSelectFrom, runM mUnionSelect, runM mOrTautology, runM mAndTautology
  , runM mCommentTerminator, mBlockComment ]

/-- One re.sub pass per pattern, in list order. -/
def applyMatchers (ms : List (List Char → Option Nat)) (l : List Char) :
    List Char :=
  ms.foldl (fun acc m => reSubDel m acc) l

/-- The residual special characters removed one by one at the end
(removing all occurrences of each character equals one filter pass). -/
def badChars : List Char := ['<', '>', '"', Char.ofNat 39, '&']

/-- str.strip(): drop leading and trailing whitespace. -/
def pyStrip (l : List Char) : List Char :=
  ((l.dropWhile isPySpace).reverse.dropWhile isPySpace).reverse

/-- Every step of sanitize_string after the paired-markup removal. -/
def sanitizeAfterMarkup (l : List Char) (maxLength : Nat) : List Char :=
  pyStrip (((applyMatchers sqlMatchers
    (applyMatchers dangerousMatchers
      (reSubDel mTag l))).take maxLength).filter
    (fun c => !(badChars.contains c)))

/-- InputValidator.sanitize_string on a character list. -/
def sanitizeList (l : List Char) (maxLength : Nat) : List Char :=
  sanitizeAfterMarkup (reSubDel mScriptBlock l) maxLength

/-- InputValidator.sanitize_string. -/
def sanitize_string (s : String) (maxLength : Nat) : String :=
  ⟨sanitizeList s.data maxLength⟩

/-! ### Identity of the substitution passes on trigger-free text -/

theorem reSubDel_id (m : List Char → Option Nat) :
    ∀ l : List Char, (∀ t ∈ l.tails, m t = none) → reSubDel m l = l := by
  intro l
  induction l with
  | nil => intro _; rfl
  | cons c rest ih =>
      intro h
      have hhead : m (c :: rest) = none := by
        apply h
        rw [List.mem_tails]
      have htail : ∀ t ∈ rest.tails, m t = none := by
        intro t ht
        apply h
        rw [List.mem_tails] at *
        exact ht.trans (List.suffix_cons c rest)
      rw [reSubDel_cons, hhead, ih htail]

theorem applyMatchers_id (ms : List (List Char → Option Nat)) (l : List Char)
    (h : ∀ m ∈ ms, ∀ t ∈ l.tails, m t = none) : applyMatchers ms l = l := by
  induction ms with
  | nil => rfl
  | cons m rest ih =>
      have h1 : reSubDel m l = l :=
        reSubDel_id m l (h m (List.mem_cons_self m rest))
      unfold applyMatchers at *
      rw [List.foldl_cons, h1]
      exact ih (fun m2 hm2 => h m2 (List.mem_cons_of_mem m hm2))

/-! ### Stability of the matchers under extension on the right

A match found at the head of a list is still found (possibly longer) when
the list is extended on the right; consequently a trigger-free string has
trigger-free contiguous substrings. -/

/-- A matcher whose match is unchanged by extension: same consumed count,
extended rest. -/
def MRigid (m : Matcher) : Prop :=
  ∀ x ext n r, m x = some (n, r) → m (x ++ ext) = some (n, r ++ ext)

/-- A matcher whose match is unchanged by extension unless it consumed the
whole input. -/
def MSemi (m : Matcher) : Prop :=
  ∀ x ext n r, m x = some (n, r) → r = [] ∨ m (x ++ ext) = some (n, r ++ ext)

theorem MRigid.toSemi {m : Matcher} (h : MRigid m) : MSemi m :=
  fun x ext n r hm => Or.inr (h x ext n r hm)

theorem mChar_rigid (ch : Char) : MRigid (mChar ch) := by
  intro x ext n r hm
  cases x with
  | nil => cases hm
  | cons c rest =>
      by_cases hc : c.toLower = ch
      · rw [show mChar ch (c :: rest) = some (1, rest) by simp [mChar, hc]]
          at hm
        cases hm
        simp [mChar, hc]
      · rw [show mChar ch (c :: rest) = none by simp [mChar, hc]] at hm
        cases hm

theorem mLit_rigid : ∀ pat : List Char, MRigid (mLit pat) := by
  intro pat
  induction pat with
  | nil =>
      intro x ext n r hm
      unfold mLit at hm ⊢
      cases hm
      rfl
  | cons p ps ih =>
      intro x ext n r hm
      cases x with
      | nil => cases hm
      | cons c rest =>
          by_cases hc : c.toLower = p
          · rw [show mLit (p :: ps) (c :: rest)
                = (mLit ps rest).map (fun q => (q.1 + 1, q.2)) by
                  simp [mLit, hc]] at hm
            cases hlit : mLit ps rest with
            | none => rw [hlit] at hm; cases hm
            | some pr =>
                obtain ⟨n1, r1⟩ := pr
                rw [hlit] at hm
                cases hm
                have hrec := ih rest ext n1 r1 hlit
                rw [show mLit (p :: ps) ((c :: rest) ++ ext)
                    = (mLit ps (rest ++ ext)).map (fun q => (q.1 + 1, q.2)) by
                      simp [mLit, hc]]
                rw [hrec]
                rfl
          · rw [show mLit (p :: ps) (c :: rest) = none by
              simp [mLit, hc]] at hm
            cases hm

/-- takeWhile through an append, when the run stops inside the left part. -/
theorem takeWhile_append_of_lt (p : Char → Bool) :
    ∀ (x ext : List Char), (x.takeWhile p).length < x.length →
    (x ++ ext).takeWhile p = x.takeWhile p := by
  intro x
  induction x with
  | nil => intro ext h; simp at h
  | cons c rest ih =>
      intro ext h
      cases hc : p c with
      | true =>
          rw [List.takeWhile_cons_of_pos hc] at h
          rw [List.cons_append, List.takeWhile_cons_of_pos hc,
            List.takeWhile_cons_of_pos hc]
          simp only [List.length_cons, List.length_cons] at h
          rw [ih ext (by omega)]
      | false =>
          rw [List.cons_append, List.takeWhile_cons_of_neg (by simp [hc]),
            List.takeWhile_cons_of_neg (by simp [hc])]

/-- The run on x is never longer than the run on x ++ ext. -/
theorem takeWhile_length_append_ge (p : Char → Bool) :
    ∀ (x ext : List Char),
    (x.takeWhile p).length ≤ ((x ++ ext).takeWhile p).length := by
  intro x
  induction x with
  | nil => intro ext; simp
  | cons c rest ih =>
      intro ext
      cases hc : p c with
      | true =>
          rw [List.cons_append, List.takeWhile_cons_of_pos hc,
            List.takeWhile_cons_of_pos hc]
          simpa using ih ext
      | false =>
          rw [List.takeWhile_cons_of_neg (by simp [hc])]
          simp

theorem mRun_semi (p : Char → Bool) (a1 : Bool) : MSemi (mRun p a1) := by
  intro x ext n r hm
  by_cases hr : r = []
  · exact Or.inl hr
  · right
    unfold mRun at hm
    by_cases hz : (a1 && decide ((x.takeWhile p).length = 0)) = true
    · rw [if_pos hz] at hm; cases hm
    · rw [if_neg hz] at hm
      cases hm
      have hlt : (x.takeWhile p).length < x.length := by
        by_contra hge
        push_neg at hge
        exact hr (List.drop_eq_nil_of_le hge)
      have heq := takeWhile_append_of_lt p x ext hlt
      unfold mRun
      rw [heq, if_neg hz,
        List.drop_append_of_le_length (Nat.le_of_lt hlt)]

theorem mThen_rigid {a b : Matcher} (ha : MSemi a) (hb : MRigid b)
    (hbn : b [] = none) : MRigid (mThen a b) := by
  intro x ext n r hm
  unfold mThen at hm ⊢
  cases hax : a x with
  | none => rw [hax] at hm; cases hm
  | some pr =>
      obtain ⟨n1, r1⟩ := pr
      rw [hax] at hm
      dsimp only at hm
      cases hbx : b r1 with
      | none => rw [hbx] at hm; cases hm
      | some qr =>
          obtain ⟨m1, r2⟩ := qr
          rw [hbx] at hm
          dsimp only at hm
          cases hm
          rcases ha x ext n1 r1 hax with hre | hre
          · subst hre; rw [hbn] at hbx; cases hbx
          · rw [hre]
            dsimp only
            rw [hb r1 ext m1 _ hbx]

/-- Extension stability of a consumed-length pattern. -/
def ExtStable (f : List Char → Option Nat) : Prop :=
  ∀ x ext, (f x).isSome → (f (x ++ ext)).isSome

theorem ExtStable.of_rigid {m : Matcher} (h : MRigid m) : ExtStable (runM m) := by
  intro x ext hx
  unfold runM at hx ⊢
  cases hm : m x with
  | none => rw [hm] at hx; cases hx
  | some pr =>
      rw [h x ext pr.1 pr.2 hm]
      rfl

theorem matchFromAt_ext (x ext : List Char) (h : (matchFromAt x).isSome) :
    (matchFromAt (x ++ ext)).isSome := by
  by_cases hz : (x.takeWhile isPySpace).length = 0
  · simp [matchFromAt, hz] at h
  · cases hfl : mLit "from".toList (x.drop (x.takeWhile isPySpace).length) with
    | none =>
        exfalso
        unfold matchFromAt at h
        rw [if_neg hz] at h
        unfold runM at h
        rw [hfl] at h
        simp at h
    | some pr =>
        obtain ⟨m1, r1⟩ := pr
        have hlt : (x.takeWhile isPySpace).length < x.length := by
          rcases Nat.lt_or_ge (x.takeWhile isPySpace).length x.length with hlt | hge
          · exact hlt
          · exfalso
            rw [List.drop_eq_nil_of_le hge] at hfl
            cases hfl
        have heqt := takeWhile_append_of_lt isPySpace x ext hlt
        have hext := mLit_rigid "from".toList
          (x.drop (x.takeWhile isPySpace).length) ext m1 r1 hfl
        unfold matchFromAt
        rw [heqt, if_neg hz,
          List.drop_append_of_le_length (Nat.le_of_lt hlt)]
        unfold runM
        rw [hext]
        rfl

theorem dotStarWsFrom_ext :
    ∀ (u ext : List Char), (dotStarWsFrom u).isSome →
    (dotStarWsFrom (u ++ ext)).isSome := by
  intro u
  induction u with
  | nil => intro ext h; simp [dotStarWsFrom] at h
  | cons c rest ih =>
      intro ext h
      by_cases hnl : c = '\n'
      · have h2 : (matchFromAt (c :: rest)).isSome := by
          simpa [dotStarWsFrom, hnl] using h
        have h3 := matchFromAt_ext (c :: rest) ext h2
        simpa [dotStarWsFrom, hnl] using h3
      · cases hd : dotStarWsFrom (rest ++ ext) with
        | some n2 => simp [dotStarWsFrom, hnl, hd]
        | none =>
            cases hdr : dotStarWsFrom rest with
            | some n1 =>
                have h4 := ih ext (by simp [hdr])
                rw [hd] at h4
                cases h4
            | none =>
                have h2 : (matchFromAt (c :: rest)).isSome := by
                  simpa [dotStarWsFrom, hnl, hdr] using h
                have h3 := matchFromAt_ext (c :: rest) ext h2
                simpa [dotStarWsFrom, hnl, hd] using h3

theorem tryFromWs_isSome_of (l : List Char) (i : Nat) :
    ∀ (k : Nat), 1 ≤ i → i ≤ k → (dotStarWsFrom (l.drop i)).isSome →
    (tryFromWs k l).isSome := by
  intro k
  induction k with
  | zero => intro h1 h2 _; omega
  | succ k ih =>
      intro h1 h2 h
      cases hd : dotStarWsFrom (l.drop (k + 1)) with
      | some n => simp [tryFromWs, hd]
      | none =>
          have hik : i ≤ k := by
            rcases Nat.lt_or_ge i (k + 1) with hlt | hge
            · omega
            · exfalso
              have : i = k + 1 := by omega
              subst this
              rw [hd] at h
              cases h
          simpa [tryFromWs, hd] using ih h1 hik h

theorem tryFromWs_some_exists (l : List Char) :
    ∀ (k : Nat), (tryFromWs k l).isSome →
    ∃ i, 1 ≤ i ∧ i ≤ k ∧ (dotStarWsFrom (l.drop i)).isSome := by
  intro k
  induction k with
  | zero => intro h; simp [tryFromWs] at h
  | succ k ih =>
      intro h
      cases hd : dotStarWsFrom (l.drop (k + 1)) with
      | some n =>
          exact ⟨k + 1, by omega, le_refl _, by simp [hd]⟩
      | none =>
          have h2 : (tryFromWs k l).isSome := by
            simpa [tryFromWs, hd] using h
          obtain ⟨i, hi1, hi2, his⟩ := ih h2
          exact ⟨i, hi1, by omega, his⟩

theorem mWsDotStarFrom_ext (r1 ext : List Char)
    (h : (mWsDotStarFrom r1).isSome) : (mWsDotStarFrom (r1 ++ ext)).isSome := by
  unfold mWsDotStarFrom at h ⊢
  cases htf : tryFromWs ((r1.takeWhile isPySpace).length) r1 with
  | none => rw [htf] at h; cases h
  | some n0 =>
      obtain ⟨i, hi1, hi2, his⟩ := tryFromWs_some_exists r1 _
        (by rw [htf]; rfl)
      have hile : i ≤ r1.length :=
        le_trans hi2 (List.Sublist.length_le (List.takeWhile_sublist _))
      have hds := dotStarWsFrom_ext (r1.drop i) ext his
      rw [← List.drop_append_of_le_length hile] at hds
      have hk2 : i ≤ ((r1 ++ ext).takeWhile isPySpace).length :=
        le_trans hi2 (takeWhile_length_append_ge isPySpace r1 ext)
      have hsome := tryFromWs_isSome_of (r1 ++ ext) i
        ((r1 ++ ext).takeWhile isPySpace).length hi1 hk2 hds
      cases htf2 : tryFromWs (((r1 ++ ext).takeWhile isPySpace).length)
          (r1 ++ ext) with
      | none => rw [htf2] at hsome; cases hsome
      | some n3 => simp [htf2]

theorem extStable_selectFrom : ExtStable (runM mSelectFrom) := by
  intro x ext h
  unfold runM mSelectFrom mThen at h ⊢
  cases hax : mLit "select".toList x with
  | none => rw [hax] at h; dsimp only at h; simp at h
  | some pr =>
      obtain ⟨n1, r1⟩ := pr
      rw [hax] at h
      dsimp only at h
      cases hb : mWsDotStarFrom r1 with
      | none => rw [hb] at h; dsimp only at h; simp at h
      | some qr =>
          have hax2 := mLit_rigid "select".toList x ext n1 r1 hax
          rw [hax2]
          dsimp only
          have hbs := mWsDotStarFrom_ext r1 ext (by simp [hb])
          cases hb2 : mWsDotStarFrom (r1 ++ ext) with
          | none => rw [hb2] at hbs; cases hbs
          | some qr2 => simp

theorem findCommentClose_ext :
    ∀ (u ext : List Char), (findCommentClose u).isSome →
    (findCommentClose (u ++ ext)).isSome := by
  intro u
  induction u with
  | nil => intro ext h; simp [findCommentClose] at h
  | cons c u ih =>
      intro ext h
      by_cases hcs : c = '*' ∧ u.head? = some '/'
      · have hhead : (u ++ ext).head? = some '/' := by
          cases u with
          | nil => cases hcs.2
          | cons d u2 => simpa using hcs.2
        simp [findCommentClose, hcs.1, hhead]
      · by_cases hnl : c = '\n'
        · exfalso
          simp only [findCommentClose] at h
          rw [if_neg hcs, if_pos hnl] at h
          cases h
        · have hcs2 : ¬ (c = '*' ∧ (u ++ ext).head? = some '/') := by
            intro hc
            apply hcs
            refine ⟨hc.1, ?_⟩
            cases u with
            | nil =>
                exfalso
                simp only [findCommentClose] at h
                rw [if_neg hcs, if_neg hnl] at h
                simp [findCommentClose] at h
            | cons d u2 => simpa using hc.2
          simp only [findCommentClose] at h
          rw [if_neg hcs, if_neg hnl] at h
          simp only [List.cons_append, List.append_eq, findCommentClose]
          rw [if_neg hcs2, if_neg hnl]
          cases hfc : findCommentClose u with
          | none => rw [hfc] at h; cases h
          | some k =>
              have h2 := ih ext (by rw [hfc]; rfl)
              cases hfc2 : findCommentClose (u ++ ext) with
              | none => rw [hfc2] at h2; cases h2
              | some k2 => simp [hfc2]

theorem mBlockComment_ext : ExtStable mBlockComment := by
  intro x ext h
  cases x with
  | nil => simp [mBlockComment] at h
  | cons c u =>
      by_cases hcs : c = '/' ∧ u.head? = some '*'
      · have hhead : (u ++ ext).head? = some '*' := by
          cases u with
          | nil => cases hcs.2
          | cons d u2 => simpa using hcs.2
        have htail : (u ++ ext).tail = u.tail ++ ext := by
          cases u with
          | nil => cases hcs.2
          | cons d u2 => rfl
        simp only [mBlockComment] at h
        rw [if_pos hcs] at h
        simp only [List.cons_append, List.append_eq, mBlockComment]
        rw [if_pos ⟨hcs.1, hhead⟩, htail]
        cases hfc : findCommentClose u.tail with
        | none => rw [hfc] at h; cases h
        | some k =>
            have h2 := findCommentClose_ext u.tail ext (by rw [hfc]; rfl)
            cases hfc2 : findCommentClose (u.tail ++ ext) with
            | none => rw [hfc2] at h2; cases h2
            | some k2 => simp [hfc2]
      · exfalso
        simp only [mBlockComment] at h
        rw [if_neg hcs] at h
        cases h

theorem findClose_ext :
    ∀ (u ext : List Char), (findClose u).isSome →
    (findClose (u ++ ext)).isSome := by
  intro u
  induction u with
  | nil => intro ext h; simp [findClose] at h
  | cons c u ih =>
      intro ext h
      by_cases hcs : c = '<' ∧ u.head? = some '/'
      · have hhead : (u ++ ext).head? = some '/' := by
          cases u with
          | nil => cases hcs.2
          | cons d u2 => simpa using hcs.2
        have htail : (u ++ ext).tail = u.tail ++ ext := by
          cases u with
          | nil => cases hcs.2
          | cons d u2 => rfl
        simp only [findClose] at h
        rw [if_pos hcs] at h
        simp only [List.cons_append, List.append_eq, findClose]
        rw [if_pos ⟨hcs.1, hhead⟩, htail]
        split at h
        · next g rest2 heq =>
            have hlt : (u.tail.takeWhile (fun ch => ch != '>')).length
                < u.tail.length := by
              by_contra hge
              push_neg at hge
              rw [List.drop_eq_nil_of_le hge] at heq
              cases heq
            have heqt := takeWhile_append_of_lt (fun ch => ch != '>')
              u.tail ext hlt
            rw [heqt, List.drop_append_of_le_length (Nat.le_of_lt hlt), heq]
            rfl
        · next => cases h
      · have hcs2 : ¬ (c = '<' ∧ (u ++ ext).head? = some '/') := by
          intro hc
          apply hcs
          refine ⟨hc.1, ?_⟩
          cases u with
          | nil =>
              exfalso
              simp only [findClose] at h
              rw [if_neg hcs] at h
              simp [findClose] at h
          | cons d u2 => simpa using hc.2
        simp only [findClose] at h
        rw [if_neg hcs] at h
        simp only [List.cons_append, List.append_eq, findClose]
        rw [if_neg hcs2]
        cases hfc : findClose u with
        | none => rw [hfc] at h; cases h
        | some k =>
            have h2 := ih ext (by rw [hfc]; rfl)
            cases hfc2 : findClose (u ++ ext) with
            | none => rw [hfc2] at h2; cases h2
            | some k2 => simp [hfc2]

theorem mScriptBlock_ext : ExtStable mScriptBlock := by
  intro x ext h
  cases x with
  | nil => simp [mScriptBlock] at h
  | cons c rest =>
      by_cases hc : c = '<'
      · simp only [mScriptBlock] at h
        rw [if_pos hc] at h
        simp only [List.cons_append, List.append_eq, mScriptBlock]
        rw [if_pos hc]
        split at h
        · next g rest2 heq =>
            have hlt : (rest.takeWhile (fun ch => ch != '>')).length
                < rest.length := by
              by_contra hge
              push_neg at hge
              rw [List.drop_eq_nil_of_le hge] at heq
              cases heq
            have heqt := takeWhile_append_of_lt (fun ch => ch != '>')
              rest ext hlt
            rw [heqt, List.drop_append_of_le_length (Nat.le_of_lt hlt), heq]
            cases hfc : findClose rest2 with
            | none => rw [hfc] at h; cases h
            | some k =>
                have h2 := findClose_ext rest2 ext (by rw [hfc]; rfl)
                cases hfc2 : findClose (rest2 ++ ext) with
                | none => rw [hfc2] at h2; cases h2
                | some k2 => simp [hfc2]
        · next => cases h
      · exfalso
        simp only [mScriptBlock] at h
        rw [if_neg hc] at h
        cases h

theorem mTag_ext : ExtStable mTag := by
  intro x ext h
  cases x with
  | nil => simp [mTag] at h
  | cons c rest =>
      by_cases hc : c = '<'
      · by_cases hz : (rest.takeWhile (fun ch => ch != '>')).length = 0
        · exfalso
          simp only [mTag] at h
          rw [if_pos hc, if_pos hz] at h
          cases h
        · simp only [mTag] at h
          rw [if_pos hc, if_neg hz] at h
          simp only [List.cons_append, List.append_eq, mTag]
          split at h
          · next g rest2 heq =>
              have hlt : (rest.takeWhile (fun ch => ch != '>')).length
                  < rest.length := by
                by_contra hge
                push_neg at hge
                rw [List.drop_eq_nil_of_le hge] at heq
                cases heq
              have heqt := takeWhile_append_of_lt (fun ch => ch != '>')
                rest ext hlt
              rw [if_pos hc, heqt, if_neg hz,
                List.drop_append_of_le_length (Nat.le_of_lt hlt), heq]
              rfl
          · next => cases h
      · exfalso
        simp only [mTag] at h
        rw [if_neg hc] at h
        cases h

theorem extStable_javascript : ExtStable (runM mJavascriptUri) :=
  ExtStable.of_rigid (mLit_rigid _)

theorem extStable_alert : ExtStable (runM mAlertCall) :=
  ExtStable.of_rigid (mThen_rigid (mLit_rigid _).toSemi
    (mThen_rigid (mRun_semi _ _) (mChar_rigid _) rfl) rfl)

theorem extStable_eval : ExtStable (runM mEvalCall) :=
  ExtStable.of_rigid (mThen_rigid (mLit_rigid _).toSemi
    (mThen_rigid (mRun_semi _ _) (mChar_rigid _) rfl) rfl)

theorem extStable_exec : ExtStable (runM mExecCall) :=
  ExtStable.of_rigid (mThen_rigid (mLit_rigid _).toSemi
    (mThen_rigid (mRun_semi _ _) (mChar_rigid _) rfl) rfl)

theorem extStable_document : ExtStable (runM mDocumentDot) :=
  ExtStable.of_rigid (mLit_rigid _)

theorem extStable_window : ExtStable (runM mWindowDot) :=
  ExtStable.of_rigid (mLit_rigid _)

theorem extStable_onEvent : ExtStable (runM mOnEvent) :=
  ExtStable.of_rigid (mThen_rigid (mLit_rigid _).toSemi
    (mThen_rigid (mRun_semi _ _)
      (mThen_rigid (mRun_semi _ _) (mChar_rigid _) rfl) rfl) rfl)

theorem extStable_dropTable : ExtStable (runM mDropTable) :=
  ExtStable.of_rigid (mThen_rigid (mLit_rigid _).toSemi
    (mThen_rigid (mRun_semi _ _) (mLit_rigid _) rfl) rfl)

theorem extStable_deleteFrom : ExtStable (runM mDeleteFrom) :=
  ExtStable.of_rigid (mThen_rigid (mLit_rigid _).toSemi
    (mThen_rigid (mRun_semi _ _) (mLit_rigid _) rfl) rfl)

theorem extStable_insertInto : ExtStable (runM mInsertInto) :=
  ExtStable.of_rigid (mThen_rigid (mLit_rigid _).toSemi
    (mThen_rigid (mRun_semi _ _) (mLit_rigid _) rfl) rfl)

theorem extStable_updateSet : ExtStable (runM mUpdateSet) :=
  ExtStable.of_rigid (mThen_rigid (mLit_rigid _).toSemi
    (mThen_rigid (mRun_semi _ _) (mLit_rigid _) rfl) rfl)

theorem extStable_unionSelect : ExtStable (runM mUnionSelect) :=
  ExtStable.of_rigid (mThen_rigid (mLit_rigid _).toSemi
    (mThen_rigid (mRun_semi _ _) (mLit_rigid _) rfl) rfl)

theorem extStable_orTautology : ExtStable (runM mOrTautology) :=
  ExtStable.of_rigid (mThen_rigid (mLit_rigid _).toSemi
    (mThen_rigid (mRun_semi _ _)
      (mThen_rigid (mChar_rigid _).toSemi
        (mThen_rigid (mRun_semi _ _)
          (mThen_rigid (mChar_rigid _).toSemi
            (mThen_rigid (mRun_semi _ _) (mChar_rigid _) rfl) rfl) rfl) rfl)
      rfl) rfl)

theorem extStable_andTautology : ExtStable (runM mAndTautology) :=
  ExtStable.of_rigid (mThen_rigid (mLit_rigid _).toSemi
    (mThen_rigid (mRun_semi _ _)
      (mThen_rigid (mChar_rigid _).toSemi
        (mThen_rigid (mRun_semi _ _)
          (mThen_rigid (mChar_rigid _).toSemi
            (mThen_rigid (mRun_semi _ _) (mChar_rigid _) rfl) rfl) rfl) rfl)
      rfl) rfl)

theorem extStable_commentTerminator : ExtStable (runM mCommentTerminator) :=
  ExtStable.of_rigid (mThen_rigid (mChar_rigid _).toSemi
    (mThen_rigid (mRun_semi _ _) (mLit_rigid _) rfl) rfl)

/-- All substitution patterns of sanitize_string, in application order. -/
def allMatchers : List (List Char → Option Nat) :=
  [mScriptBlock, mTag] ++ dangerousMatchers ++ sqlMatchers

theorem allMatchers_extStable : ∀ f ∈ allMatchers, ExtStable f := by
  intro f hf
  simp only [allMatchers, dangerousMatchers, sqlMatchers, List.mem_append,
    List.mem_cons, List.not_mem_nil, or_false] at hf
  rcases hf with ((rfl | rfl) | rfl | rfl | rfl | rfl | rfl | rfl | rfl) |
    rfl | rfl | rfl | rfl | rfl | rfl | rfl | rfl | rfl | rfl
  · exact mScriptBlock_ext
  · exact mTag_ext
  · exact extStable_javascript
  · exact extStable_alert
  · exact extStable_eval
  · exact extStable_exec
  · exact extStable_document
  · exact extStable_window
  · exact extStable_onEvent
  · exact extStable_dropTable
  · exact extStable_deleteFrom
  · exact extStable_insertInto
  · exact extStable_updateSet
  · exact extStable_selectFrom
  · exact extStable_unionSelect
  · exact extStable_orTautology
  · exact extStable_andTautology
  · exact extStable_commentTerminator
  · exact mBlockComment_ext

/-- The input contains no occurrence of any of the removed patterns, at any
position. -/
def NoTriggers (l : List Char) : Prop :=
  ∀ f ∈ allMatchers, ∀ t ∈ l.tails, f t = none

/-- The input contains none of the residual special characters. -/
def NoSpecials (l : List Char) : Prop :=
  ∀ c ∈ l, badChars.contains c = false

instance (l : List Char) : Decidable (NoTriggers l) := by
  unfold NoTriggers
  infer_instance

instance (l : List Char) : Decidable (NoSpecials l) := by
  unfold NoSpecials
  infer_instance

theorem noTriggers_of_part (l l2 : List Char)
    (hsf : ∃ ext, l2 ++ ext <:+ l) (h : NoTriggers l) : NoTriggers l2 := by
  intro f hf t2 ht2
  obtain ⟨ext, hext⟩ := hsf
  rw [List.mem_tails] at ht2
  obtain ⟨pre, hpre⟩ := ht2
  have hsfx : (t2 ++ ext) <:+ l := by
    apply List.IsSuffix.trans _ hext
    exact ⟨pre, by rw [← List.append_assoc, hpre]⟩
  have hnone : f (t2 ++ ext) = none := h f hf _ ((List.mem_tails _ _).mpr hsfx)
  cases hf2 : f t2 with
  | none => rfl
  | some n =>
      exfalso
      have h2 := allMatchers_extStable f hf t2 ext (by rw [hf2]; rfl)
      rw [hnone] at h2
      cases h2

/-! Lemmas about str.strip. -/

theorem dropWhile_head_false (p : Char → Bool) :
    ∀ (l : List Char) (c : Char), (l.dropWhile p).head? = some c →
    p c = false := by
  intro l
  induction l with
  | nil => intro c h; cases h
  | cons a rest ih =>
      intro c h
      by_cases ha : p a
      · rw [List.dropWhile_cons_of_pos ha] at h
        exact ih c h
      · rw [List.dropWhile_cons_of_neg (by simpa using ha)] at h
        cases h
        simpa using ha

theorem dropWhile_eq_self_of_head (p : Char → Bool) (l : List Char)
    (h : ∀ c, l.head? = some c → p c = false) : l.dropWhile p = l := by
  cases l with
  | nil => rfl
  | cons a rest =>
      have := h a rfl
      rw [List.dropWhile_cons_of_neg (by simp [this])]

/-- The decomposition x = stripped-part ++ trailing-junk up to a leading
prefix: pyStrip x with some junk appended is a suffix of x. -/
theorem pyStrip_part (x : List Char) : ∃ ext, pyStrip x ++ ext <:+ x := by
  have hd : x.dropWhile isPySpace <:+ x := List.dropWhile_suffix _
  have hsplit : ((x.dropWhile isPySpace).reverse.dropWhile isPySpace).reverse
      ++ ((x.dropWhile isPySpace).reverse.takeWhile isPySpace).reverse
        = x.dropWhile isPySpace := by
    rw [← List.reverse_append, List.takeWhile_append_dropWhile,
      List.reverse_reverse]
  exact ⟨((x.dropWhile isPySpace).reverse.takeWhile isPySpace).reverse,
    by rw [show pyStrip x
        = ((x.dropWhile isPySpace).reverse.dropWhile isPySpace).reverse
        from rfl, hsplit]; exact hd⟩

theorem pyStrip_length_le (x : List Char) : (pyStrip x).length ≤ x.length := by
  obtain ⟨ext, pre, hpre⟩ := pyStrip_part x
  have := congrArg List.length hpre
  simp only [List.length_append] at this
  omega

theorem pyStrip_mem (x : List Char) (c : Char) (h : c ∈ pyStrip x) :
    c ∈ x := by
  obtain ⟨ext, pre, hpre⟩ := pyStrip_part x
  rw [← hpre]
  simp [h]

theorem pyStrip_idem (x : List Char) : pyStrip (pyStrip x) = pyStrip x := by
  have hstep1 : (pyStrip x).dropWhile isPySpace = pyStrip x := by
    apply dropWhile_eq_self_of_head
    intro c hc
    have hsplit : ((x.dropWhile isPySpace).reverse.dropWhile isPySpace).reverse
        ++ ((x.dropWhile isPySpace).reverse.takeWhile isPySpace).reverse
          = x.dropWhile isPySpace := by
      rw [← List.reverse_append, List.takeWhile_append_dropWhile,
        List.reverse_reverse]
    have hc2 : (x.dropWhile isPySpace).head? = some c := by
      rw [← hsplit]
      cases he : ((x.dropWhile isPySpace).reverse.dropWhile isPySpace).reverse
        with
      | nil =>
          exfalso
          have hnil : pyStrip x = [] := he
          rw [hnil] at hc
          cases hc
      | cons c1 r1 =>
          have hcons : pyStrip x = c1 :: r1 := he
          rw [hcons] at hc
          simpa using hc
    exact dropWhile_head_false isPySpace x c hc2
  have hstep2 : ((pyStrip x).reverse).dropWhile isPySpace
      = (pyStrip x).reverse := by
    apply dropWhile_eq_self_of_head
    intro c hc
    rw [show pyStrip x
      = ((x.dropWhile isPySpace).reverse.dropWhile isPySpace).reverse
      from rfl, List.reverse_reverse] at hc
    exact dropWhile_head_false isPySpace (x.dropWhile isPySpace).reverse c hc
  show (((pyStrip x).dropWhile isPySpace).reverse.dropWhile isPySpace).reverse
    = pyStrip x
  rw [hstep1, hstep2, List.reverse_reverse]

theorem sanitizeList_plain (l : List Char) (ml : Nat)
    (ht : NoTriggers l) (hs : NoSpecials l) :
    sanitizeList l ml = pyStrip (l.take ml) := by
  have h1 : reSubDel mScriptBlock l = l :=
    reSubDel_id _ l (ht mScriptBlock (by simp [allMatchers]))
  have h2 : reSubDel mTag l = l :=
    reSubDel_id _ l (ht mTag (by simp [allMatchers]))
  have h3 : applyMatchers dangerousMatchers l = l :=
    applyMatchers_id _ l (fun m hm => ht m (by simp [allMatchers, hm]))
  have h4 : applyMatchers sqlMatchers l = l :=
    applyMatchers_id _ l (fun m hm => ht m (by simp [allMatchers, hm]))
  have h5 : (l.take ml).filter (fun c => !(badChars.contains c)) = l.take ml := by
    apply List.filter_eq_self.mpr
    intro c hc
    have hbc := hs c (List.take_subset _ _ hc)
    show (!(badChars.contains c)) = true
    rw [hbc]
    rfl
  unfold sanitizeList sanitizeAfterMarkup
  rw [h1, h2, h3, h4, h5]

theorem output_part (l : List Char) (ml : Nat) :
    ∃ ext, pyStrip (l.take ml) ++ ext <:+ l := by
  obtain ⟨e1, pre, hpre⟩ := pyStrip_part (l.take ml)
  refine ⟨e1 ++ l.drop ml, pre, ?_⟩
  rw [show pre ++ (pyStrip (l.take ml) ++ (e1 ++ l.drop ml))
      = (pre ++ (pyStrip (l.take ml) ++ e1)) ++ l.drop ml by
    simp [List.append_assoc]]
  rw [hpre, List.take_append_drop]

theorem sanitizeList_plain_idem (l : List Char) (ml : Nat)
    (ht : NoTriggers l) (hs : NoSpecials l) :
    sanitizeList (sanitizeList l ml) ml = sanitizeList l ml := by
  rw [sanitizeList_plain l ml ht hs]
  have hto : NoTriggers (pyStrip (l.take ml)) :=
    noTriggers_of_part l _ (output_part l ml) ht
  have hso : NoSpecials (pyStrip (l.take ml)) := by
    intro c hc
    exact hs c (List.take_subset _ _ (pyStrip_mem _ c hc))
  rw [sanitizeList_plain _ ml hto hso]
  have hlen : (pyStrip (l.take ml)).length ≤ ml := by
    have h1 := pyStrip_length_le (l.take ml)
    have h2 : (l.take ml).length ≤ ml := by
      simp [List.length_take]
    omega
  rw [List.take_of_length_le hlen]
  exact pyStrip_idem _

/-! Removal of a whole paired markup block by the first substitution. -/

theorem mScriptBlock_none_of_head (c : Char) (h : ¬ c = '<')
    (x : List Char) : mScriptBlock (c :: x) = none := by
  simp only [mScriptBlock]
  rw [if_neg h]

theorem reSubDel_pre (pre rest : List Char) (h : ∀ c ∈ pre, ¬ c = '<') :
    reSubDel mScriptBlock (pre ++ rest)
      = pre ++ reSubDel mScriptBlock rest := by
  induction pre with
  | nil => simp
  | cons c pre2 ih =>
      have hnone := mScriptBlock_none_of_head c (h c (by simp)) (pre2 ++ rest)
      rw [List.cons_append]
      rw [show reSubDel mScriptBlock (c :: (pre2 ++ rest))
          = c :: reSubDel mScriptBlock (pre2 ++ rest) by
        rw [reSubDel_cons, hnone]]
      rw [ih (fun c2 hc2 => h c2 (by simp [hc2]))]
      rfl

theorem takeWhile_neq_gt (tagA : List Char) (rest : List Char)
    (ha : ∀ c ∈ tagA, ¬ c = '>') :
    (tagA ++ '>' :: rest).takeWhile (fun ch => ch != '>') = tagA := by
  induction tagA with
  | nil =>
      rw [List.nil_append, List.takeWhile_cons_of_neg (by simp)]
  | cons c t ih =>
      have hc := ha c (by simp)
      rw [List.cons_append, List.takeWhile_cons_of_pos (by simp [hc])]
      rw [ih (fun c2 h2 => ha c2 (by simp [h2]))]

theorem findClose_through (inner tagB post : List Char)
    (hi : ∀ c ∈ inner, ¬ c = '<') (hb : ∀ c ∈ tagB, ¬ c = '>') :
    findClose (inner ++ '<' :: '/' :: (tagB ++ '>' :: post))
      = some (inner.length + (tagB.length + 3)) := by
  induction inner with
  | nil =>
      simp only [List.nil_append, findClose]
      rw [if_pos ⟨trivial, rfl⟩, show ('/' :: (tagB ++ '>' :: post)).tail
          = tagB ++ '>' :: post from rfl,
        takeWhile_neq_gt tagB post hb, List.drop_left]
      show some (tagB.length + 3)
        = some (List.length ([] : List Char) + (tagB.length + 3))
      simp
  | cons c inner2 ih =>
      have hc := hi c (by simp)
      simp only [List.cons_append, List.append_eq, findClose]
      rw [if_neg (fun hx => hc hx.1)]
      rw [ih (fun c2 h2 => hi c2 (by simp [h2]))]
      simp only [Option.map_some', List.length_cons]
      congr 1
      omega

theorem mScriptBlock_block (tagA inner tagB post : List Char)
    (ha : ∀ c ∈ tagA, ¬ c = '>') (hi : ∀ c ∈ inner, ¬ c = '<')
    (hb : ∀ c ∈ tagB, ¬ c = '>') :
    mScriptBlock ('<' ::
        (tagA ++ '>' :: (inner ++ '<' :: '/' :: (tagB ++ '>' :: post))))
      = some (tagA.length + 2 + (inner.length + (tagB.length + 3))) := by
  simp only [mScriptBlock]
  rw [if_pos trivial, takeWhile_neq_gt tagA _ ha, List.drop_left]
  show (findClose (inner ++ '<' :: '/' :: (tagB ++ '>' :: post))).map
      (fun k => tagA.length + 2 + k)
    = some (tagA.length + 2 + (inner.length + (tagB.length + 3)))
  rw [findClose_through inner tagB post hi hb]
  rfl

theorem scriptBlock_removed (pre tagA inner tagB post : List Char)
    (hpre : ∀ c ∈ pre, ¬ c = '<') (ha : ∀ c ∈ tagA, ¬ c = '>')
    (hi : ∀ c ∈ inner, ¬ c = '<') (hb : ∀ c ∈ tagB, ¬ c = '>') :
    reSubDel mScriptBlock (pre ++ '<' ::
        (tagA ++ '>' :: (inner ++ '<' :: '/' :: (tagB ++ '>' :: post))))
      = pre ++ reSubDel mScriptBlock post := by
  rw [reSubDel_pre pre _ hpre]
  congr 1
  have hm := mScriptBlock_block tagA inner tagB post ha hi hb
  have hknat : tagA.length + 2 + (inner.length + (tagB.length + 3))
      = (tagA.length + inner.length + tagB.length + 4) + 1 := by omega
  rw [hknat] at hm
  rw [reSubDel_cons, hm]
  have hdrop : (tagA ++ '>' ::
        (inner ++ '<' :: '/' :: (tagB ++ '>' :: post))).drop
      (tagA.length + inner.length + tagB.length + 4) = post := by
    have hform : tagA ++ '>' :: (inner ++ '<' :: '/' :: (tagB ++ '>' :: post))
        = (tagA ++ '>' :: inner ++ '<' :: '/' :: tagB ++ ['>']) ++ post := by
      simp [List.append_assoc]
    rw [hform]
    have hlen : (tagA ++ '>' :: inner ++ '<' :: '/' :: tagB ++ ['>']).length
        = tagA.length + inner.length + tagB.length + 4 := by
      simp [List.length_append]
      omega
    rw [← hlen, List.drop_left]
  dsimp only
  rw [hdrop]

/-- Bool test: pat is a prefix of l. -/
def isPrefixList : List Char → List Char → Bool
  | [], _ => true
  | _ :: _, [] => false
  | p :: ps, c :: cs => p == c && isPrefixList ps cs

/-- Bool test: pat occurs as a contiguous substring of l. -/
def listContains (pat l : List Char) : Bool :=
  l.tails.any (fun t => isPrefixList pat t)

/-- The concrete scenario input of the spec. -/
def xssInput : String :=
  "<script>alert(" ++ sq ++ "xss" ++ sq ++ ")</script>John"

/-! ## Claim C8 -/

/-- C8 counterexample: the plain, trigger-free, special-character-free input
aaa is not returned trimmed-unchanged by sanitize with max_length 2 — it is
truncated to aa first (trimming alone would leave it unchanged). -/
theorem sanitize_truncation_cex :
    NoTriggers ("aaa" : String).data ∧
    NoSpecials ("aaa" : String).data ∧
    sanitize_string "aaa" 2 = "aa" ∧
    ("aa" : String) ≠ "aaa" ∧
    pyStrip ("aaa" : String).data = ("aaa" : String).data := by
  refine ⟨by decide, by decide, by decide, by decide, by decide⟩

/-- C8 amended: (1) the paired-markup substitution removes a whole script
block, enclosed content included; (2) on input with no markup tags, no
denylisted patterns and no special characters, sanitize_string returns the
first max_length characters trimmed of leading/trailing whitespace — hence
the trimmed input itself whenever the input is at most max_length long —
and is idempotent; (3) the concrete scenario: sanitizing the xss input
yields John, with no script, alert( or angle brackets left. -/
theorem sanitize_string_spec :
    (∀ pre tagA inner tagB post : List Char,
      (∀ c ∈ pre, ¬ c = '<') → (∀ c ∈ tagA, ¬ c = '>') →
      (∀ c ∈ inner, ¬ c = '<') → (∀ c ∈ tagB, ¬ c = '>') →
      reSubDel mScriptBlock (pre ++ '<' ::
          (tagA ++ '>' :: (inner ++ '<' :: '/' :: (tagB ++ '>' :: post))))
        = pre ++ reSubDel mScriptBlock post) ∧
    (∀ (s : String) (ml : Nat), NoTriggers s.data → NoSpecials s.data →
      sanitize_string s ml = ⟨pyStrip (s.data.take ml)⟩ ∧
      (s.length ≤ ml → sanitize_string s ml = ⟨pyStrip s.data⟩) ∧
      sanitize_string (sanitize_string s ml) ml = sanitize_string s ml) ∧
    (sanitize_string xssInput 100 = "John" ∧
      listContains ("script" : String).data
        (sanitize_string xssInput 100).data = false ∧
      listContains ("alert(" : String).data
        (sanitize_string xssInput 100).data = false ∧
      listContains ['<'] (sanitize_string xssInput 100).data = false ∧
      listContains ['>'] (sanitize_string xssInput 100).data = false ∧
      listContains ("John" : String).data
        (sanitize_string xssInput 100).data = true) := by
  refine ⟨scriptBlock_removed, ?_, ?_⟩
  · intro s ml ht hs
    refine ⟨congrArg String.mk (sanitizeList_plain s.data ml ht hs), ?_, ?_⟩
    · intro hlen
      have htake : s.data.take ml = s.data := List.take_of_length_le hlen
      show (⟨sanitizeList s.data ml⟩ : String) = ⟨pyStrip s.data⟩
      rw [sanitizeList_plain s.data ml ht hs, htake]
    · show (⟨sanitizeList (sanitize_string s ml).data ml⟩ : String)
        = ⟨sanitizeList s.data ml⟩
      have hdata : (sanitize_string s ml).data = sanitizeList s.data ml := rfl
      rw [hdata, sanitizeList_plain_idem s.data ml ht hs]
  · refine ⟨by decide, by decide, by decide, by decide, by decide, by decide⟩

/-- Witness for C8 amended: a concrete block removal, and the plain input
with surrounding whitespace sanitized to its trimmed self, idempotently. -/
theorem sanitize_string_spec_witness :
    (reSubDel mScriptBlock (("ab" : String).data ++ '<' ::
        (("b" : String).data ++ '>' :: (("xy" : String).data ++ '<' :: '/' ::
          (("b" : String).data ++ '>' :: ("cd" : String).data))))
      = ("ab" : String).data ++ reSubDel mScriptBlock ("cd" : String).data) ∧
    (sanitize_string "  John  " 100 = ⟨pyStrip ("  John  " : String).data⟩ ∧
     sanitize_string (sanitize_string "  John  " 100) 100
       = sanitize_string "  John  " 100) := by
  have h := sanitize_string_spec
  refine ⟨h.1 ("ab" : String).data ("b" : String).data ("xy" : String).data
      ("b" : String).data ("cd" : String).data
      (by decide) (by decide) (by decide) (by decide), ?_, ?_⟩
  · exact ((h.2.1 "  John  " 100 (by decide) (by decide)).2.1 (by decide))
  · exact (h.2.1 "  John  " 100 (by decide) (by decide)).2.2

end ChoreTracker
